import Mathlib

/-!
Verification of the pcjs device backplane core (bus + memory blocks + cycle
scheduler) against its natural-language specification.

The JavaScript source is shallowly embedded: each method becomes a Lean
function on an explicit state structure.  JS numbers are modelled as `Int`
(for cycle counts, which stay integral in the source) or `Rat` (for
multipliers, MHz values and frame deposits, which are fractional); machine
values stored in memory blocks are `Nat`.  Self-modifying function-pointer
dispatch (the source rebinds `readData`/`writeData` on live objects) is
modelled as an explicit enum-tagged strategy stored in the state, exactly
one tag per function the source can install.  Callbacks (trap functions,
timer callbacks, clocked devices) are external collaborators: they are
modelled as opaque identifiers, and every invocation the core performs is
returned as an explicit trace event, in invocation order.
-/

/-!
## NumIO.compress / NumIO.decompress

Run-length compression of arrays of numbers, used when persisting memory
blocks.  `countRun n l` counts how many leading elements of `l` equal `n`
and returns the remainder (the inner `while (iCompare < aSrc.length &&
aSrc[iCompare] === n)` scan of `compress`).
-/

def countRun (n : Int) : List Int → Nat × List Int
  | [] => (0, [])
  | m :: rest =>
    if m = n then
      let p := countRun n rest
      (p.1 + 1, p.2)
    else (0, m :: rest)

theorem countRun_length_le (n : Int) (l : List Int) :
    (countRun n l).2.length ≤ l.length := by
  induction l with
  | nil => simp [countRun]
  | cons m rest ih =>
    by_cases h : m = n
    · simp only [countRun, if_pos h, List.length_cons]
      omega
    · simp [countRun, h]

theorem countRun_eq (n : Int) (l : List Int) :
    l = List.replicate (countRun n l).1 n ++ (countRun n l).2 := by
  induction l with
  | nil => simp [countRun]
  | cons m rest ih =>
    by_cases h : m = n
    · subst h
      simp only [countRun, if_pos rfl, List.replicate_succ, List.cons_append]
      exact congrArg (m :: ·) ih
    · simp [countRun, h]

/-- Lean rendering of the run-building loop inside `NumIO.compress`: the
alternating `count, value` sequence (`aComp` in the source). -/
def encodeRuns : List Int → List Int
  | [] => []
  | n :: rest =>
    ((countRun n rest).1 + 1 : Int) :: n :: encodeRuns (countRun n rest).2
termination_by l => l.length
decreasing_by
  simp only [List.length_cons]
  exact Nat.lt_succ_of_le (countRun_length_le _ _)

/-- `NumIO.compress(aSrc)`: returns the run-length `count, value` pairs when
they are strictly shorter than the source array, otherwise the source array
itself. -/
def compress (aSrc : List Int) : List Int :=
  let aComp := encodeRuns aSrc
  if aComp.length ≥ aSrc.length then aSrc else aComp

/-- Expansion loop of `NumIO.decompress` (`while (iComp < aComp.length - 1)`;
a trailing unpaired element is ignored).  The JS loop `while (c--)` writes `n`
`c` times for the non-negative counts `compress` produces (`Int.toNat` maps
negative counts to zero; the source would not terminate on a negative count,
which `compress` never emits). -/
def expandPairs : List Int → List Int
  | c :: n :: rest => List.replicate c.toNat n ++ expandPairs rest
  | _ => []

/-- `NumIO.decompress(aComp, length)`: an array whose length already matches
the expected decompressed length is returned as-is, otherwise the `count,
value` pairs are expanded.  (The source preallocates `new Array(length)`;
on the image of `compress` the expansion fills it exactly, which is the only
case the persistence layer exercises.) -/
def decompress (aComp : List Int) (length : Nat) : List Int :=
  if aComp.length = length then aComp else expandPairs aComp

theorem expandPairs_encodeRuns (l : List Int) :
    expandPairs (encodeRuns l) = l := by
  induction l using encodeRuns.induct with
  | case1 => simp [encodeRuns, expandPairs]
  | case2 n rest ih =>
    rw [encodeRuns, expandPairs, ih]
    have hnn : ((countRun n rest).1 + 1 : Int).toNat = (countRun n rest).1 + 1 := by
      omega
    rw [hnn, List.replicate_succ, List.cons_append]
    exact congrArg (n :: ·) (countRun_eq n rest).symm

/-- C5: for every array `xs` of numbers, `decompress (compress xs) xs.length`
returns `xs` (including all-equal and all-distinct inputs), and `compress xs`
is the alternating run-length `count, value` encoding exactly when that
encoding is strictly smaller than `xs`, otherwise `xs` itself. -/
theorem compress_decompress_roundTrip (xs : List Int) :
    decompress (compress xs) xs.length = xs ∧
    ((encodeRuns xs).length < xs.length → compress xs = encodeRuns xs) ∧
    (xs.length ≤ (encodeRuns xs).length → compress xs = xs) := by
  refine ⟨?_, ?_, ?_⟩
  · by_cases h : (encodeRuns xs).length ≥ xs.length
    · simp [compress, decompress, h]
    · have hne : (encodeRuns xs).length ≠ xs.length := by omega
      simp [compress, decompress, h, hne, expandPairs_encodeRuns]
  · intro h
    have h' : ¬ (encodeRuns xs).length ≥ xs.length := by omega
    simp [compress, h']
  · intro h
    simp [compress, h]

/-- Closed witness for C5: the round trip evaluated on a concrete array with
both repeated and distinct values. -/
theorem compress_decompress_roundTrip_witness :
    decompress (compress [2, 2, 2, 7]) 4 = [2, 2, 2, 7] :=
  (compress_decompress_roundTrip [2, 2, 2, 7]).1

/-!
## Memory (bus/memory.js)

A fixed-size typed block of addressable storage.  The source installs
concrete functions into `this.readData` / `this.writeData` / `this.readPair`
/ `this.writePair` and swaps them at runtime (dirty tracking, trapping); we
store an enum tag naming the installed function.  A trap being installed is
the source state `nReadTraps != 0` (where `readData` is the trap closure and
the previous function sits in `readDataOrig`); our tag always holds the
"orig" function, and the effective accessors below check the trap counts,
which is observably the same dispatch.  Trap callbacks are opaque `Nat`
identifiers; every invocation is returned as a `TrapCall` event, in
invocation order.  The optional `ArrayBuffer` fast path of the constructor
(host-endianness-dependent typed arrays, bit-identical to the LE/BE
accessors it replaces) is not modelled, nor is `loadState`/`saveState`.
-/

inductive MemType
  | none
  | readonly
  | readwrite
deriving DecidableEq, Repr

inductive ReadFn
  | rNone
  | rValue
deriving DecidableEq, Repr

inductive WriteFn
  | wNone
  | wValue
  | wValueDirty
deriving DecidableEq, Repr

inductive PairReadFn
  | prNone
  | prValuePair
  | prValuePairLE
  | prValuePairBE
deriving DecidableEq, Repr

inductive PairWriteFn
  | pwNone
  | pwValuePair
  | pwValuePairDirty
  | pwValuePairLE
  | pwValuePairBE
deriving DecidableEq, Repr

/-- One invocation of a trap callback: the callback identifier, then the
three arguments the source passes — `(block.addr, offset, value)`, where
`block.addr` is `undefined` (`Option.none`) for placeholder blocks. -/
structure TrapCall where
  func : Nat
  base : Option Nat
  offset : Nat
  value : Nat
deriving DecidableEq, Repr

structure Memory where
  addr : Option Nat
  size : Nat
  type : MemType
  dataWidth : Nat
  littleEndian : Bool
  busStatic : Bool
  values : List Nat
  fDirty : Bool
  readDataFn : ReadFn
  writeDataFn : WriteFn
  readPairFn : PairReadFn
  writePairFn : PairWriteFn
  nReadTraps : Nat
  nWriteTraps : Nat
  readTrap : Option Nat
  writeTrap : Option Nat
deriving DecidableEq, Repr

def Memory.dataLimit (m : Memory) : Nat := 2 ^ m.dataWidth - 1

/-- The `Memory` constructor (non-`ArrayBuffer` path).  `busStatic` is
`bus.type == Bus.TYPE.STATIC`; on a static bus the dirty-tracking write
functions and the direct LE/BE pair accessors are selected, on a dynamic
bus the plain `writeValue`/`readValuePair`.  The dispatch tags are then set
per `Memory.TYPE` exactly as the constructor's `switch`. -/
def Memory.init (addr : Option Nat) (size : Nat) (type : MemType)
    (dataWidth : Nat) (littleEndian : Bool) (busStatic : Bool)
    (values : Option (List Nat)) : Memory :=
  let dataLimit := 2 ^ dataWidth - 1
  let vals := match values with
    | Option.some vs => vs
    | Option.none => List.replicate size dataLimit
  let writeValueFn := if busStatic then WriteFn.wValueDirty else WriteFn.wValue
  let readPairValueFn :=
    if busStatic then
      (if littleEndian then PairReadFn.prValuePairLE else PairReadFn.prValuePairBE)
    else PairReadFn.prValuePair
  let writePairValueFn :=
    if busStatic then PairWriteFn.pwValuePairDirty else PairWriteFn.pwValuePair
  let base : Memory :=
    { addr := addr, size := size, type := type, dataWidth := dataWidth,
      littleEndian := littleEndian, busStatic := busStatic, values := vals,
      fDirty := false, readDataFn := ReadFn.rNone, writeDataFn := WriteFn.wNone,
      readPairFn := PairReadFn.prNone, writePairFn := PairWriteFn.pwNone,
      nReadTraps := 0, nWriteTraps := 0, readTrap := Option.none,
      writeTrap := Option.none }
  match type with
  | MemType.none => base
  | MemType.readonly =>
    { base with readDataFn := ReadFn.rValue, writeDataFn := WriteFn.wNone,
                readPairFn := readPairValueFn, writePairFn := PairWriteFn.pwNone }
  | MemType.readwrite =>
    { base with readDataFn := ReadFn.rValue, writeDataFn := writeValueFn,
                readPairFn := readPairValueFn, writePairFn := writePairValueFn }

def Memory.readNone (m : Memory) (_offset : Nat) : Nat := m.dataLimit

def Memory.readValue (m : Memory) (offset : Nat) : Nat := m.values.getD offset 0

def Memory.writeValue (m : Memory) (offset v : Nat) : Memory :=
  { m with values := m.values.set offset v }

/-- `writeValueDirty`: stores the value, marks the block dirty, and swaps the
installed data-write function to the plain `writeValue` (both the untrapped
and the trapped branch of the source perform the same swap on the
underlying function). -/
def Memory.writeValueDirty (m : Memory) (offset v : Nat) : Memory :=
  { m with values := m.values.set offset v, fDirty := true,
           writeDataFn := WriteFn.wValue }

def Memory.readNonePair (m : Memory) (offset : Nat) : Nat :=
  if m.littleEndian then
    m.readNone offset ||| (m.readNone (offset + 1) <<< m.dataWidth)
  else
    m.readNone (offset + 1) ||| (m.readNone offset <<< m.dataWidth)

def Memory.readValuePair (m : Memory) (offset : Nat) : Nat :=
  if m.littleEndian then
    m.readValue offset ||| (m.readValue (offset + 1) <<< m.dataWidth)
  else
    m.readValue (offset + 1) ||| (m.readValue offset <<< m.dataWidth)

def Memory.readValuePairLE (m : Memory) (offset : Nat) : Nat :=
  m.values.getD offset 0 ||| (m.values.getD (offset + 1) 0 <<< m.dataWidth)

def Memory.readValuePairBE (m : Memory) (offset : Nat) : Nat :=
  m.values.getD (offset + 1) 0 ||| (m.values.getD offset 0 <<< m.dataWidth)

def Memory.writeValuePair (m : Memory) (offset value : Nat) : Memory :=
  if m.littleEndian then
    (m.writeValue offset (value &&& m.dataLimit)).writeValue (offset + 1)
      (value >>> m.dataWidth)
  else
    (m.writeValue offset (value >>> m.dataWidth)).writeValue (offset + 1)
      (value &&& m.dataLimit)

def Memory.writeValuePairLE (m : Memory) (offset value : Nat) : Memory :=
  let vs := (m.values.set offset (value &&& m.dataLimit)).set (offset + 1) (value >>> m.dataWidth)
  { m with values := vs }

def Memory.writeValuePairBE (m : Memory) (offset value : Nat) : Memory :=
  let vs := (m.values.set offset (value >>> m.dataWidth)).set (offset + 1) (value &&& m.dataLimit)
  { m with values := vs }

/-- `writeValuePairDirty` (non-`ArrayBuffer` path): performs the LE/BE pair
store and swaps the installed pair-write function to that accessor.  Note
the source does not set `fDirty` here. -/
def Memory.writeValuePairDirty (m : Memory) (offset value : Nat) : Memory :=
  if m.littleEndian then
    { m.writeValuePairLE offset value with writePairFn := PairWriteFn.pwValuePairLE }
  else
    { m.writeValuePairBE offset value with writePairFn := PairWriteFn.pwValuePairBE }

/-- The currently installed underlying (untrapped) single-unit read. -/
def Memory.applyReadFn (m : Memory) (offset : Nat) : Nat :=
  match m.readDataFn with
  | ReadFn.rNone => m.readNone offset
  | ReadFn.rValue => m.readValue offset

/-- The currently installed underlying (untrapped) single-unit write. -/
def Memory.applyWriteFn (m : Memory) (offset v : Nat) : Memory :=
  match m.writeDataFn with
  | WriteFn.wNone => m
  | WriteFn.wValue => m.writeValue offset v
  | WriteFn.wValueDirty => m.writeValueDirty offset v

/-- The currently installed underlying (untrapped) pair read. -/
def Memory.applyPairReadFn (m : Memory) (offset : Nat) : Nat :=
  match m.readPairFn with
  | PairReadFn.prNone => m.readNonePair offset
  | PairReadFn.prValuePair => m.readValuePair offset
  | PairReadFn.prValuePairLE => m.readValuePairLE offset
  | PairReadFn.prValuePairBE => m.readValuePairBE offset

/-- The currently installed underlying (untrapped) pair write. -/
def Memory.applyPairWriteFn (m : Memory) (offset value : Nat) : Memory :=
  match m.writePairFn with
  | PairWriteFn.pwNone => m
  | PairWriteFn.pwValuePair => m.writeValuePair offset value
  | PairWriteFn.pwValuePairDirty => m.writeValuePairDirty offset value
  | PairWriteFn.pwValuePairLE => m.writeValuePairLE offset value
  | PairWriteFn.pwValuePairBE => m.writeValuePairBE offset value

/-- Effective `this.readData(offset)`: when a read trap is installed this is
the `readDataTrap` closure — the underlying read is performed first, the
callback then receives the value that was read, and that value is returned
unchanged. -/
def Memory.readData (m : Memory) (offset : Nat) : Nat × List TrapCall :=
  let value := m.applyReadFn offset
  if m.nReadTraps ≠ 0 then
    (value, [⟨m.readTrap.getD 0, m.addr, offset, value⟩])
  else (value, [])

/-- Effective `this.writeData(offset, value)`: when a write trap is installed
this is the `writeDataTrap` closure — the callback receives the value about
to be written, then the underlying write is committed. -/
def Memory.writeData (m : Memory) (offset v : Nat) : Memory × List TrapCall :=
  if m.nWriteTraps ≠ 0 then
    (m.applyWriteFn offset v, [⟨m.writeTrap.getD 0, m.addr, offset, v⟩])
  else (m.applyWriteFn offset v, [])

/-- Effective `this.readPair(offset)`: the trapped form (`readPairTrap`)
performs the underlying pair read, then invokes the callback twice — at
`offset` and `offset + 1` — each time with the full pair value, and
returns the pair value unchanged. -/
def Memory.readPair (m : Memory) (offset : Nat) : Nat × List TrapCall :=
  let value := m.applyPairReadFn offset
  if m.nReadTraps ≠ 0 then
    (value, [⟨m.readTrap.getD 0, m.addr, offset, value⟩,
             ⟨m.readTrap.getD 0, m.addr, offset + 1, value⟩])
  else (value, [])

/-- Effective `this.writePair(offset, value)`: the trapped form
(`writePairTrap`) invokes the callback twice — at `offset` and `offset + 1`,
each time with the full pair value — before the underlying pair write is
committed. -/
def Memory.writePair (m : Memory) (offset value : Nat) : Memory × List TrapCall :=
  if m.nWriteTraps ≠ 0 then
    (m.applyPairWriteFn offset value,
     [⟨m.writeTrap.getD 0, m.addr, offset, value⟩,
      ⟨m.writeTrap.getD 0, m.addr, offset + 1, value⟩])
  else (m.applyPairWriteFn offset value, [])

/-- `isDirty()`: reports and clears the dirty flag, reinstalling the
dirty-tracking write functions (on their underlying slot when trapped). -/
def Memory.isDirty (m : Memory) : Memory × Bool :=
  if m.fDirty then
    ({ m with fDirty := false, writeDataFn := WriteFn.wValueDirty,
              writePairFn := PairWriteFn.pwValuePairDirty }, true)
  else (m, false)

/-- `trapRead(func)`: installs the hook when none is present, increments the
reference count when the same callback is already installed, and fails on a
different callback. -/
def Memory.trapRead (m : Memory) (func : Nat) : Memory × Bool :=
  if m.nReadTraps = 0 then
    ({ m with nReadTraps := 1, readTrap := Option.some func }, true)
  else if m.readTrap = Option.some func then
    ({ m with nReadTraps := m.nReadTraps + 1 }, true)
  else (m, false)

def Memory.trapWrite (m : Memory) (func : Nat) : Memory × Bool :=
  if m.nWriteTraps = 0 then
    ({ m with nWriteTraps := 1, writeTrap := Option.some func }, true)
  else if m.writeTrap = Option.some func then
    ({ m with nWriteTraps := m.nWriteTraps + 1 }, true)
  else (m, false)

/-- `untrapRead(func)`: decrements the matching hook's reference count and
removes the hook only when it reaches zero. -/
def Memory.untrapRead (m : Memory) (func : Nat) : Memory × Bool :=
  if m.nReadTraps ≠ 0 ∧ m.readTrap = Option.some func then
    if m.nReadTraps - 1 = 0 then
      ({ m with nReadTraps := 0, readTrap := Option.none }, true)
    else ({ m with nReadTraps := m.nReadTraps - 1 }, true)
  else (m, false)

def Memory.untrapWrite (m : Memory) (func : Nat) : Memory × Bool :=
  if m.nWriteTraps ≠ 0 ∧ m.writeTrap = Option.some func then
    if m.nWriteTraps - 1 = 0 then
      ({ m with nWriteTraps := 0, writeTrap := Option.none }, true)
    else ({ m with nWriteTraps := m.nWriteTraps - 1 }, true)
  else (m, false)

theorem listGetD_set_self (l : List Nat) (i v : Nat) (h : i < l.length) :
    (l.set i v).getD i 0 = v := by
  induction l generalizing i with
  | nil => simp at h
  | cons a t ih =>
    cases i with
    | zero => simp
    | succ n =>
      simp only [List.set_cons_succ, List.getD_cons_succ]
      exact ih n (by simpa using h)

/-- Dispatch consistency of a memory block: the installed read/write data
functions are the ones the constructor selects for the block's type and bus,
tracking the `writeValueDirty` / `writeValue` swap (a static READWRITE block
either still has the dirty-marking write installed or is already dirty).
`Memory.init` establishes it and every modelled operation preserves it. -/
def Memory.Consistent (m : Memory) : Prop :=
  (m.type = MemType.readwrite → m.busStatic = true →
    (m.writeDataFn = WriteFn.wValueDirty ∨
     (m.writeDataFn = WriteFn.wValue ∧ m.fDirty = true))) ∧
  (m.type = MemType.readwrite → m.busStatic = false →
    (m.writeDataFn = WriteFn.wValue ∧ m.fDirty = false)) ∧
  ((m.type = MemType.none ∨ m.type = MemType.readonly) →
    (m.writeDataFn = WriteFn.wNone ∧ m.fDirty = false)) ∧
  (m.type = MemType.none → m.readDataFn = ReadFn.rNone) ∧
  (m.type ≠ MemType.none → m.readDataFn = ReadFn.rValue)

instance (m : Memory) : Decidable m.Consistent := by
  unfold Memory.Consistent
  infer_instance

theorem Memory.consistent_init (addr : Option Nat) (size : Nat) (type : MemType)
    (dataWidth : Nat) (littleEndian busStatic : Bool) (values : Option (List Nat)) :
    (Memory.init addr size type dataWidth littleEndian busStatic values).Consistent := by
  cases type <;> cases busStatic <;>
    simp [Memory.init, Memory.Consistent]

theorem Memory.consistent_applyWriteFn (m : Memory) (h : m.Consistent)
    (offset v : Nat) : (m.applyWriteFn offset v).Consistent := by
  obtain ⟨h1, h2, h3, h4, h5⟩ := h
  cases hw : m.writeDataFn with
  | wNone =>
    simpa [Memory.applyWriteFn, hw] using ⟨h1, h2, h3, h4, h5⟩
  | wValue =>
    simp only [Memory.applyWriteFn, hw, Memory.writeValue]
    exact ⟨by simpa [hw] using h1, by simpa [hw] using h2,
           by simpa [hw] using h3, h4, h5⟩
  | wValueDirty =>
    simp only [Memory.applyWriteFn, hw, Memory.writeValueDirty]
    refine ⟨fun _ _ => Or.inr ⟨rfl, rfl⟩, fun ht hb => ?_, fun ht => ?_, h4, h5⟩
    · rcases h2 ht hb with ⟨hw2, -⟩
      rw [hw] at hw2
      cases hw2
    · rcases h3 ht with ⟨hw3, -⟩
      rw [hw] at hw3
      cases hw3

theorem Memory.consistent_writeData (m : Memory) (h : m.Consistent)
    (offset v : Nat) : (m.writeData offset v).1.Consistent := by
  unfold Memory.writeData
  split <;> exact m.consistent_applyWriteFn h offset v

theorem Memory.consistent_isDirty (m : Memory) (h : m.Consistent) :
    (m.isDirty).1.Consistent := by
  obtain ⟨h1, h2, h3, h4, h5⟩ := h
  by_cases hd : m.fDirty
  · simp only [Memory.isDirty, hd, if_pos]
    refine ⟨fun _ _ => Or.inl rfl, fun ht hb => ?_, fun ht => ?_, h4, h5⟩
    · rcases h2 ht hb with ⟨-, hf⟩
      rw [hd] at hf
      cases hf
    · rcases h3 ht with ⟨-, hf⟩
      rw [hd] at hf
      cases hf
  · simpa [Memory.isDirty, hd] using ⟨h1, h2, h3, h4, h5⟩

theorem Memory.consistent_applyPairWriteFn (m : Memory) (h : m.Consistent)
    (offset value : Nat) : (m.applyPairWriteFn offset value).Consistent := by
  obtain ⟨h1, h2, h3, h4, h5⟩ := h
  cases hw : m.writePairFn <;>
    simp only [Memory.applyPairWriteFn, hw, Memory.writeValuePair,
      Memory.writeValuePairDirty, Memory.writeValuePairLE,
      Memory.writeValuePairBE, Memory.writeValue] <;>
    first
      | exact ⟨h1, h2, h3, h4, h5⟩
      | (split <;> exact ⟨h1, h2, h3, h4, h5⟩)

theorem Memory.consistent_writePair (m : Memory) (h : m.Consistent)
    (offset value : Nat) : (m.writePair offset value).1.Consistent := by
  unfold Memory.writePair
  split <;> exact m.consistent_applyPairWriteFn h offset value

theorem Memory.consistent_trapRead (m : Memory) (h : m.Consistent) (f : Nat) :
    (m.trapRead f).1.Consistent := by
  obtain ⟨h1, h2, h3, h4, h5⟩ := h
  unfold Memory.trapRead
  split
  · exact ⟨h1, h2, h3, h4, h5⟩
  · split <;> exact ⟨h1, h2, h3, h4, h5⟩

theorem Memory.consistent_trapWrite (m : Memory) (h : m.Consistent) (f : Nat) :
    (m.trapWrite f).1.Consistent := by
  obtain ⟨h1, h2, h3, h4, h5⟩ := h
  unfold Memory.trapWrite
  split
  · exact ⟨h1, h2, h3, h4, h5⟩
  · split <;> exact ⟨h1, h2, h3, h4, h5⟩

theorem Memory.consistent_untrapRead (m : Memory) (h : m.Consistent) (f : Nat) :
    (m.untrapRead f).1.Consistent := by
  obtain ⟨h1, h2, h3, h4, h5⟩ := h
  unfold Memory.untrapRead
  split
  · split <;> exact ⟨h1, h2, h3, h4, h5⟩
  · exact ⟨h1, h2, h3, h4, h5⟩

theorem Memory.consistent_untrapWrite (m : Memory) (h : m.Consistent) (f : Nat) :
    (m.untrapWrite f).1.Consistent := by
  obtain ⟨h1, h2, h3, h4, h5⟩ := h
  unfold Memory.untrapWrite
  split
  · split <;> exact ⟨h1, h2, h3, h4, h5⟩
  · exact ⟨h1, h2, h3, h4, h5⟩

/-- C1 counterexample: a READWRITE block attached to a dynamic bus (the
default `Bus.TYPE.DYNAMIC`) gets the plain `writeValue` installed by the
constructor, so `write(0, 5)` stores the value but leaves the dirty flag
false — refuting "the write sets the block's dirty flag to true" for every
installed block. -/
theorem memory_write_dirty_cex :
    ((((Memory.init (Option.some 0) 4 MemType.readwrite 8 true false
        Option.none).writeData 0 5).1.readData 0).1 = 5) ∧
    (((Memory.init (Option.some 0) 4 MemType.readwrite 8 true false
        Option.none).writeData 0 5).1.fDirty = false) := by
  decide

/-- C1 (amended): for every consistently-dispatched installed block and valid
offset — on a READWRITE block, `write(offset, v)` followed by
`read(offset)` returns `v`, and the write sets the dirty flag on a static
bus while leaving it false on a dynamic bus; on a NONE or READONLY block a
write leaves the stored values unchanged; and a read on a NONE block
returns the all-ones value `2 ^ dataWidth - 1` regardless of prior
writes. -/
theorem memory_rw_write_read (m : Memory) (offset v : Nat)
    (hc : m.Consistent) (hoff : offset < m.values.length) :
    (m.type = MemType.readwrite →
      ((((m.writeData offset v).1.readData offset).1 = v) ∧
       (m.busStatic = true → (m.writeData offset v).1.fDirty = true) ∧
       (m.busStatic = false → (m.writeData offset v).1.fDirty = false))) ∧
    ((m.type = MemType.none ∨ m.type = MemType.readonly) →
      (m.writeData offset v).1.values = m.values) ∧
    (m.type = MemType.none → (m.readData offset).1 = 2 ^ m.dataWidth - 1) := by
  obtain ⟨h1, h2, h3, h4, h5⟩ := hc
  refine ⟨fun ht => ?_, fun ht => ?_, fun ht => ?_⟩
  · have hrd : m.readDataFn = ReadFn.rValue := h5 (by rw [ht]; intro hx; cases hx)
    have hwd : (m.applyWriteFn offset v).values = m.values.set offset v ∧
        ((m.busStatic = true → (m.applyWriteFn offset v).fDirty = true) ∧
         (m.busStatic = false → (m.applyWriteFn offset v).fDirty = false)) ∧
        (m.applyWriteFn offset v).readDataFn = ReadFn.rValue := by
      cases hb : m.busStatic
      · obtain ⟨hwv, hfd⟩ := h2 ht hb
        simp [Memory.applyWriteFn, hwv, Memory.writeValue, hrd, hfd]
      · rcases h1 ht hb with hwv | ⟨hwv, hfd⟩
        · simp [Memory.applyWriteFn, hwv, Memory.writeValueDirty, hrd]
        · simp [Memory.applyWriteFn, hwv, Memory.writeValue, hrd, hfd]
    obtain ⟨hvals, hfd, hrd2⟩ := hwd
    have hread : (((m.writeData offset v).1.readData offset).1 = v) := by
      have hw1 : (m.writeData offset v).1 = m.applyWriteFn offset v := by
        unfold Memory.writeData
        split <;> rfl
      rw [hw1]
      simp only [Memory.readData, Memory.applyReadFn, hrd2, Memory.readValue, hvals]
      split <;> exact listGetD_set_self m.values offset v hoff
    have hw1 : (m.writeData offset v).1 = m.applyWriteFn offset v := by
      unfold Memory.writeData
      split <;> rfl
    exact ⟨hread, by rw [hw1]; exact hfd.1, by rw [hw1]; exact hfd.2⟩
  · have hwn : m.writeDataFn = WriteFn.wNone := (h3 ht).1
    have hw1 : (m.writeData offset v).1 = m.applyWriteFn offset v := by
      unfold Memory.writeData
      split <;> rfl
    rw [hw1]
    simp [Memory.applyWriteFn, hwn]
  · have hrn : m.readDataFn = ReadFn.rNone := h4 ht
    simp only [Memory.readData, Memory.applyReadFn, hrn, Memory.readNone,
      Memory.dataLimit]
    split <;> rfl

/-- Closed witness for C1 (amended): a freshly installed static-bus READWRITE
block satisfies the hypotheses, and write-then-read returns the value with
the dirty flag set. -/
theorem memory_rw_write_read_witness :
    (Memory.init (Option.some 0) 4 MemType.readwrite 8 true true
        Option.none).Consistent ∧
    ((((Memory.init (Option.some 0) 4 MemType.readwrite 8 true true
        Option.none).writeData 1 7).1.readData 1).1 = 7) ∧
    (((Memory.init (Option.some 0) 4 MemType.readwrite 8 true true
        Option.none).writeData 1 7).1.fDirty = true) := by
  have h := memory_rw_write_read
    (Memory.init (Option.some 0) 4 MemType.readwrite 8 true true Option.none)
    1 7 (by decide) (by decide)
  obtain ⟨hrw, -, -⟩ := h
  obtain ⟨ha, hb, -⟩ := hrw (by decide)
  exact ⟨by decide, ha, hb (by decide)⟩

/-- C3: trap reference counting on a block with no trap installed — two
`trapRead f` calls both return true; `trapRead g` with a different callback
fails while `f` is installed; one `untrapRead f` returns true yet reads
still invoke `f`; a second `untrapRead f` removes the hook so reads invoke
nothing.  The same holds for the write direction. -/
theorem memory_trap_nesting (m : Memory) (f g offset v : Nat)
    (hr : m.nReadTraps = 0) (hw : m.nWriteTraps = 0) (hfg : f ≠ g) :
    ((m.trapRead f).2 = true ∧
     ((m.trapRead f).1.trapRead f).2 = true ∧
     ((m.trapRead f).1.trapRead g).2 = false ∧
     (((m.trapRead f).1.trapRead f).1.untrapRead f).2 = true ∧
     ((((m.trapRead f).1.trapRead f).1.untrapRead f).1.readData
        offset).2.map TrapCall.func = [f] ∧
     ((((m.trapRead f).1.trapRead f).1.untrapRead f).1.untrapRead f).2 = true ∧
     (((((m.trapRead f).1.trapRead f).1.untrapRead f).1.untrapRead
        f).1.readData offset).2 = []) ∧
    ((m.trapWrite f).2 = true ∧
     ((m.trapWrite f).1.trapWrite f).2 = true ∧
     ((m.trapWrite f).1.trapWrite g).2 = false ∧
     (((m.trapWrite f).1.trapWrite f).1.untrapWrite f).2 = true ∧
     ((((m.trapWrite f).1.trapWrite f).1.untrapWrite f).1.writeData offset
        v).2.map TrapCall.func = [f] ∧
     ((((m.trapWrite f).1.trapWrite f).1.untrapWrite f).1.untrapWrite f).2 =
        true ∧
     (((((m.trapWrite f).1.trapWrite f).1.untrapWrite f).1.untrapWrite
        f).1.writeData offset v).2 = []) := by
  constructor
  · simp [Memory.trapRead, Memory.untrapRead, Memory.readData, hr, hfg]
  · simp [Memory.trapWrite, Memory.untrapWrite, Memory.writeData, hw, hfg]

/-- Closed witness for C3 on a freshly installed block with callbacks 1, 2. -/
theorem memory_trap_nesting_witness :
    (Memory.init (Option.some 0) 4 MemType.readwrite 8 true true
        Option.none).nReadTraps = 0 ∧
    ((Memory.init (Option.some 0) 4 MemType.readwrite 8 true true
        Option.none).trapRead 1).2 = true ∧
    (((Memory.init (Option.some 0) 4 MemType.readwrite 8 true true
        Option.none).trapRead 1).1.trapRead 2).2 = false := by
  have h := memory_trap_nesting
    (Memory.init (Option.some 0) 4 MemType.readwrite 8 true true Option.none)
    1 2 0 5 (by decide) (by decide) (by decide)
  exact ⟨by decide, h.1.1, h.1.2.2.1⟩

/-- C4: with a read trap installed, a single-unit read performs the
underlying read and invokes the callback once with
`(baseAddress?, offset, value-read)`, returning the read value unchanged;
with a write trap installed, a single-unit write invokes the callback once
with `(baseAddress?, offset, value-about-to-be-written)` and commits the
underlying write (the callback argument is the incoming value, fixed before
the store happens). -/
theorem memory_trap_firing (m : Memory) (f offset v : Nat) :
    (m.nReadTraps ≠ 0 → m.readTrap = Option.some f →
      ((m.readData offset).1 = m.applyReadFn offset ∧
       (m.readData offset).2 = [⟨f, m.addr, offset, m.applyReadFn offset⟩])) ∧
    (m.nWriteTraps ≠ 0 → m.writeTrap = Option.some f →
      ((m.writeData offset v).1 = m.applyWriteFn offset v ∧
       (m.writeData offset v).2 = [⟨f, m.addr, offset, v⟩])) := by
  constructor
  · intro h hf
    simp [Memory.readData, h, hf]
  · intro h hf
    simp [Memory.writeData, h, hf]

/-- Closed witness for C4: a concrete block with read trap 3 and write trap
4 installed. -/
theorem memory_trap_firing_witness :
    ((((Memory.init (Option.some 16) 4 MemType.readwrite 8 true true
        Option.none).trapRead 3).1.trapWrite 4).1.readData 2).2 =
      [⟨3, Option.some 16, 2, 255⟩] ∧
    ((((Memory.init (Option.some 16) 4 MemType.readwrite 8 true true
        Option.none).trapRead 3).1.trapWrite 4).1.writeData 2 9).2 =
      [⟨4, Option.some 16, 2, 9⟩] := by
  have h := memory_trap_firing
    (((Memory.init (Option.some 16) 4 MemType.readwrite 8 true true
      Option.none).trapRead 3).1.trapWrite 4).1 3 2 9
  have h2 := memory_trap_firing
    (((Memory.init (Option.some 16) 4 MemType.readwrite 8 true true
      Option.none).trapRead 3).1.trapWrite 4).1 4 2 9
  refine ⟨?_, ?_⟩
  · have := (h.1 (by decide) (by decide)).2
    rw [this]
    decide
  · have := (h2.2 (by decide) (by decide)).2
    rw [this]
    decide

/-- C10: with a read trap installed, `readPair(offset)` invokes the callback
twice — at `offset` and `offset + 1`, each invocation receiving the full
pair value — and returns exactly the value the untrapped pair read would
return; with a write trap installed, `writePair(offset, value)` invokes the
callback twice with the full pair value and then commits the underlying
pair write. -/
theorem memory_pair_trap (m : Memory) (f offset value : Nat) :
    (m.nReadTraps ≠ 0 → m.readTrap = Option.some f →
      ((m.readPair offset).1 =
         (({ m with nReadTraps := 0 } : Memory).readPair offset).1 ∧
       (m.readPair offset).2 =
         [⟨f, m.addr, offset, m.applyPairReadFn offset⟩,
          ⟨f, m.addr, offset + 1, m.applyPairReadFn offset⟩])) ∧
    (m.nWriteTraps ≠ 0 → m.writeTrap = Option.some f →
      ((m.writePair offset value).1 = m.applyPairWriteFn offset value ∧
       (m.writePair offset value).2 =
         [⟨f, m.addr, offset, value⟩, ⟨f, m.addr, offset + 1, value⟩])) := by
  constructor
  · intro h hf
    constructor
    · simp only [Memory.readPair, h]
      have : ({ m with nReadTraps := 0 } : Memory).applyPairReadFn offset =
          m.applyPairReadFn offset := by
        unfold Memory.applyPairReadFn Memory.readNonePair Memory.readValuePair
          Memory.readValuePairLE Memory.readValuePairBE Memory.readNone
          Memory.readValue Memory.dataLimit
        rfl
      simp [this, h]
    · simp [Memory.readPair, h, hf]
  · intro h hf
    simp [Memory.writePair, h, hf]

/-- Closed witness for C10: pair access on a concrete trapped block (values
initialized to the all-ones byte, so the untrapped little-endian pair value
is 0xFFFF = 65535). -/
theorem memory_pair_trap_witness :
    ((((Memory.init (Option.some 16) 4 MemType.readwrite 8 true true
        Option.none).trapRead 3).1.trapWrite 4).1.readPair 0).2 =
      [⟨3, Option.some 16, 0, 65535⟩, ⟨3, Option.some 16, 1, 65535⟩] ∧
    ((((Memory.init (Option.some 16) 4 MemType.readwrite 8 true true
        Option.none).trapRead 3).1.trapWrite 4).1.writePair 0 513).2 =
      [⟨4, Option.some 16, 0, 513⟩, ⟨4, Option.some 16, 1, 513⟩] := by
  have h := memory_pair_trap
    (((Memory.init (Option.some 16) 4 MemType.readwrite 8 true true
      Option.none).trapRead 3).1.trapWrite 4).1 3 0 513
  have h2 := memory_pair_trap
    (((Memory.init (Option.some 16) 4 MemType.readwrite 8 true true
      Option.none).trapRead 3).1.trapWrite 4).1 4 0 513
  refine ⟨?_, ?_⟩
  · have := (h.1 (by decide) (by decide)).2
    rw [this]
    decide
  · have := (h2.2 (by decide) (by decide)).2
    rw [this]
    decide

/-!
## Bus (bus/bus.js)

The address space: an array of block slots of `blockSize` addresses each.
The constructor pre-populates every slot with one shared NONE placeholder
block via `addBlocks` (value semantics here, object sharing in JS).
`addBlocks(addr, size, type, block)` walks the covered slots in order,
failing — with the slots already written in the same call left in place —
when a slot portion is misaligned or not a full block, or when the target
slot holds a non-NONE block.  The `while` loop is rendered with an explicit
`gas` iteration bound so the recursion is structural; the loop guard
`iBlock < blocks.length` increments `iBlock` every pass, so
`blocks.length + 1` gas (what `Bus.addBlocks` passes) can never run out
before the guard stops the loop, and the rendering is exact.
-/

/-- Floor base-2 logarithm (`Math.log2(n)|0` of the source, with the JS
`-Infinity|0 = 0` convention at 0), written with an explicit fuel bound so
it evaluates by kernel reduction (`n` halvings always suffice). -/
def log2floorAux : Nat → Nat → Nat
  | 0, _ => 0
  | fuel + 1, n => if n ≤ 1 then 0 else log2floorAux fuel (n / 2) + 1

def log2floor (n : Nat) : Nat := log2floorAux n n

structure Bus where
  busStatic : Bool
  addrWidth : Nat
  addrTotal : Nat
  addrLimit : Nat
  blockSize : Nat
  blockTotal : Nat
  blockShift : Nat
  blockLimit : Nat
  dataWidth : Nat
  littleEndian : Bool
  blocks : List (Option Memory)
  nTraps : Nat
deriving Repr

/-- The `blockExisting && blockExisting.type != Memory.TYPE.NONE` guard of
`addBlocks`, as "the slot may be overwritten". -/
def slotReusable : Option Memory → Bool
  | Option.none => true
  | Option.some b => decide (b.type = MemType.none)

/-- The per-slot loop of `Bus.addBlocks`, with the source's cursor variables
(`addrNext`, `sizeLeft`, `offset`, `iBlock`) made explicit. -/
def Bus.addBlocksLoop (bus : Bus) (type : MemType) (block : Option Memory)
    (addrNext sizeLeft offset iBlock : Nat) : Nat → Bus × Bool
  | 0 => (bus, true)
  | gas + 1 =>
    if 0 < sizeLeft ∧ iBlock < bus.blocks.length then
      let addrBlock := iBlock * bus.blockSize
      let sizeBlock := min (bus.blockSize - (addrNext - addrBlock)) sizeLeft
      if addrNext ≠ addrBlock ∨ sizeBlock ≠ bus.blockSize then (bus, false)
      else if slotReusable (bus.blocks.getD iBlock Option.none) = false then
        (bus, false)
      else
        match block with
        | Option.none =>
          let blockNew := Memory.init (Option.some addrNext) sizeBlock type
            bus.dataWidth bus.littleEndian bus.busStatic Option.none
          Bus.addBlocksLoop
            { bus with blocks := bus.blocks.set iBlock (Option.some blockNew) }
            type block (addrBlock + bus.blockSize) (sizeLeft - sizeBlock)
            (offset + sizeBlock) (iBlock + 1) gas
        | Option.some b =>
          if b.size = bus.blockSize then
            Bus.addBlocksLoop
              { bus with blocks := bus.blocks.set iBlock (Option.some b) }
              type block (addrBlock + bus.blockSize) (sizeLeft - sizeBlock)
              (offset + sizeBlock) (iBlock + 1) gas
          else
            let vals := (b.values.drop offset).take sizeBlock
            if vals.length ≠ sizeBlock then (bus, false)
            else
              let blockNew := Memory.init (Option.some addrNext) sizeBlock type
                bus.dataWidth bus.littleEndian bus.busStatic (Option.some vals)
              Bus.addBlocksLoop
                { bus with blocks := bus.blocks.set iBlock (Option.some blockNew) }
                type block (addrBlock + bus.blockSize) (sizeLeft - sizeBlock)
                (offset + sizeBlock) (iBlock + 1) gas
    else (bus, true)

/-- `Bus.addBlocks(addr, size, type, block)`. -/
def Bus.addBlocks (bus : Bus) (addr size : Nat) (type : MemType)
    (block : Option Memory) : Bus × Bool :=
  Bus.addBlocksLoop bus type block addr size 0 (addr >>> bus.blockShift)
    (bus.blocks.length + 1)

/-- The constructor loop `for (addr = 0; addr < addrTotal; addr +=
blockSize) addBlocks(addr, blockSize, NONE, block)`, by iteration count
(`i` iterations cover addresses `0 .. i*blockSize`). -/
def Bus.fillNone (bus : Bus) (block : Memory) : Nat → Bus
  | 0 => bus
  | k + 1 =>
    ((Bus.fillNone bus block k).addBlocks (k * bus.blockSize) bus.blockSize
      MemType.none (Option.some block)).1

/-- The `Bus` constructor: derives the address/block geometry from the
config (`blockSize` defaults to 1K below 17 address bits, 4K above, clamped
to the address-space size), then populates every slot with a shared NONE
placeholder block.  The iteration count equals `addrTotal / blockSize`
rounded up (identical to the source's `addr < addrTotal` condition). -/
def Bus.init (busStatic : Bool) (addrWidth dataWidth : Nat)
    (blockSizeCfg : Option Nat) (littleEndian : Bool) : Bus :=
  let addrTotal := 2 ^ addrWidth
  let bs0 := match blockSizeCfg with
    | Option.some b => b
    | Option.none => if addrWidth > 16 then 4096 else 1024
  let blockSize := if bs0 > addrTotal then addrTotal else bs0
  let blockTotal := addrTotal / blockSize
  let blockShift := log2floor blockSize
  let bus0 : Bus :=
    { busStatic := busStatic, addrWidth := addrWidth, addrTotal := addrTotal,
      addrLimit := addrTotal - 1, blockSize := blockSize,
      blockTotal := blockTotal, blockShift := blockShift,
      blockLimit := 2 ^ blockShift - 1, dataWidth := dataWidth,
      littleEndian := littleEndian,
      blocks := List.replicate blockTotal Option.none, nTraps := 0 }
  let noneBlock := Memory.init Option.none blockSize MemType.none dataWidth
    littleEndian busStatic Option.none
  bus0.fillNone noneBlock ((addrTotal + blockSize - 1) / blockSize)

theorem listGetD_set {α : Type} (l : List α) (i j : Nat) (v d : α)
    (hi : i < l.length) :
    (l.set i v).getD j d = if j = i then v else l.getD j d := by
  induction l generalizing i j with
  | nil => simp at hi
  | cons a t ih =>
    cases i with
    | zero =>
      cases j with
      | zero => simp
      | succ m => simp
    | succ n =>
      cases j with
      | zero => simp
      | succ m =>
        simp only [List.set_cons_succ, List.getD_cons_succ]
        rw [ih n m (by simpa using hi)]
        by_cases hmn : m = n <;> simp [hmn]

theorem addBlocksLoop_done (bus : Bus) (type : MemType) (block : Option Memory)
    (addrNext offset iBlock gas : Nat) :
    Bus.addBlocksLoop bus type block addrNext 0 offset iBlock gas =
      (bus, true) := by
  cases gas <;> simp [Bus.addBlocksLoop]

theorem addBlocksLoop_misaligned (bus : Bus) (type : MemType)
    (block : Option Memory) (addrNext sizeLeft offset iBlock gas : Nat)
    (hgas : 0 < gas)
    (hsz : 0 < sizeLeft) (hlen : iBlock < bus.blocks.length)
    (hne : addrNext ≠ iBlock * bus.blockSize) :
    Bus.addBlocksLoop bus type block addrNext sizeLeft offset iBlock gas =
      (bus, false) := by
  cases gas with
  | zero => omega
  | succ g =>
    rw [Bus.addBlocksLoop]
    rw [if_pos ⟨hsz, hlen⟩]
    rw [if_pos (Or.inl hne)]

theorem addBlocksLoop_partial (bus : Bus) (type : MemType)
    (block : Option Memory) (sizeLeft offset iBlock gas : Nat)
    (hgas : 0 < gas)
    (hsz : 0 < sizeLeft) (hlt : sizeLeft < bus.blockSize)
    (hlen : iBlock < bus.blocks.length) :
    Bus.addBlocksLoop bus type block (iBlock * bus.blockSize) sizeLeft offset
      iBlock gas = (bus, false) := by
  cases gas with
  | zero => omega
  | succ g =>
    rw [Bus.addBlocksLoop]
    rw [if_pos ⟨hsz, hlen⟩]
    have hmin : min (bus.blockSize -
        (iBlock * bus.blockSize - iBlock * bus.blockSize)) sizeLeft =
        sizeLeft := by
      simp only [Nat.sub_self, Nat.sub_zero]
      omega
    rw [if_pos]
    rw [hmin]
    exact Or.inr (by omega)

theorem addBlocksLoop_occupied (bus : Bus) (type : MemType)
    (block : Option Memory) (sizeLeft offset iBlock gas : Nat)
    (hgas : 0 < gas)
    (hsz : bus.blockSize ≤ sizeLeft) (hbs : 0 < bus.blockSize)
    (hlen : iBlock < bus.blocks.length)
    (hslot : slotReusable (bus.blocks.getD iBlock Option.none) = false) :
    Bus.addBlocksLoop bus type block (iBlock * bus.blockSize) sizeLeft offset
      iBlock gas = (bus, false) := by
  cases gas with
  | zero => omega
  | succ g =>
    rw [Bus.addBlocksLoop]
    rw [if_pos ⟨by omega, hlen⟩]
    have hmin : min (bus.blockSize -
        (iBlock * bus.blockSize - iBlock * bus.blockSize)) sizeLeft =
        bus.blockSize := by
      simp only [Nat.sub_self, Nat.sub_zero]
      omega
    rw [if_neg]
    · rw [if_pos hslot]
    · rw [hmin]
      push_neg
      exact ⟨rfl, rfl⟩

theorem addBlocksLoop_step (bus : Bus) (type : MemType)
    (sizeLeft offset iBlock gas : Nat)
    (hbs : 0 < bus.blockSize) (hlen : iBlock < bus.blocks.length)
    (hslot : slotReusable (bus.blocks.getD iBlock Option.none) = true)
    (hsz : bus.blockSize ≤ sizeLeft) :
    Bus.addBlocksLoop bus type Option.none (iBlock * bus.blockSize) sizeLeft
      offset iBlock (gas + 1) =
    Bus.addBlocksLoop
      { bus with blocks := bus.blocks.set iBlock (Option.some
          (Memory.init (Option.some (iBlock * bus.blockSize)) bus.blockSize
            type bus.dataWidth bus.littleEndian bus.busStatic Option.none)) }
      type Option.none ((iBlock + 1) * bus.blockSize)
      (sizeLeft - bus.blockSize) (offset + bus.blockSize) (iBlock + 1)
      gas := by
  conv_lhs => rw [Bus.addBlocksLoop]
  rw [if_pos ⟨by omega, hlen⟩]
  have hmin : min (bus.blockSize -
      (iBlock * bus.blockSize - iBlock * bus.blockSize)) sizeLeft =
      bus.blockSize := by
    simp only [Nat.sub_self, Nat.sub_zero]
    omega
  rw [if_neg]
  · rw [if_neg (by rw [hslot]; simp)]
    simp only [hmin]
    have harith : iBlock * bus.blockSize + bus.blockSize =
        (iBlock + 1) * bus.blockSize := by ring
    rw [harith]
  · rw [hmin]
    push_neg
    exact ⟨rfl, rfl⟩

theorem addBlocksLoop_success (type : MemType) (j : Nat) :
    ∀ (bus : Bus) (iBlock offset gas : Nat), j < gas →
    0 < bus.blockSize →
    iBlock + j ≤ bus.blocks.length →
    (∀ i, i < j → slotReusable (bus.blocks.getD (iBlock + i) Option.none) = true) →
    (Bus.addBlocksLoop bus type Option.none (iBlock * bus.blockSize)
        (j * bus.blockSize) offset iBlock gas).2 = true ∧
    (∀ idx, (Bus.addBlocksLoop bus type Option.none (iBlock * bus.blockSize)
        (j * bus.blockSize) offset iBlock gas).1.blocks.getD idx Option.none =
      if iBlock ≤ idx ∧ idx < iBlock + j then
        Option.some (Memory.init (Option.some (idx * bus.blockSize))
          bus.blockSize type bus.dataWidth bus.littleEndian bus.busStatic
          Option.none)
      else bus.blocks.getD idx Option.none) := by
  induction j with
  | zero =>
    intro bus iBlock offset gas hgas hbs hlen hslots
    rw [Nat.zero_mul, addBlocksLoop_done]
    refine ⟨rfl, fun idx => ?_⟩
    rw [if_neg (by omega)]
  | succ k ih =>
    intro bus iBlock offset gas hgas hbs hlen hslots
    obtain ⟨g, rfl⟩ : ∃ g, gas = g + 1 := ⟨gas - 1, by omega⟩
    have hmul : bus.blockSize ≤ (k + 1) * bus.blockSize := by
      have := Nat.le_mul_of_pos_left bus.blockSize (show 0 < k + 1 by omega)
      omega
    have hstep := addBlocksLoop_step bus type ((k + 1) * bus.blockSize) offset
      iBlock g hbs (by omega) (by simpa using hslots 0 (by omega)) hmul
    rw [hstep]
    have hsub : (k + 1) * bus.blockSize - bus.blockSize = k * bus.blockSize := by
      have : (k + 1) * bus.blockSize = k * bus.blockSize + bus.blockSize := by
        ring
      omega
    rw [hsub]
    have hlen2 : iBlock < bus.blocks.length := by omega
    obtain ⟨ht, hchar⟩ := ih
      { bus with blocks := bus.blocks.set iBlock (Option.some
          (Memory.init (Option.some (iBlock * bus.blockSize)) bus.blockSize
            type bus.dataWidth bus.littleEndian bus.busStatic Option.none)) }
      (iBlock + 1) (offset + bus.blockSize) g (by omega) hbs
      (by simpa using (by omega : iBlock + 1 + k ≤ bus.blocks.length))
      (by
        intro i hi
        dsimp only
        rw [listGetD_set _ _ _ _ _ hlen2, if_neg (by omega)]
        have := hslots (i + 1) (by omega)
        simpa [Nat.add_assoc, Nat.add_comm 1 i] using this)
    dsimp only at ht hchar
    refine ⟨ht, fun idx => ?_⟩
    rw [hchar idx]
    by_cases h1 : iBlock + 1 ≤ idx ∧ idx < iBlock + 1 + k
    · rw [if_pos h1, if_pos (by omega)]
    · rw [if_neg h1]
      by_cases h2 : iBlock ≤ idx ∧ idx < iBlock + (k + 1)
      · have hidx : idx = iBlock := by omega
        subst hidx
        rw [if_pos h2, listGetD_set _ _ _ _ _ hlen2, if_pos rfl]
      · rw [if_neg h2, listGetD_set _ _ _ _ _ hlen2, if_neg (by omega)]

theorem addBlocksLoop_tail_partial (type : MemType) (j : Nat) :
    ∀ (bus : Bus) (iBlock offset rest gas : Nat), j < gas →
    0 < bus.blockSize → 0 < rest → rest < bus.blockSize →
    iBlock + j < bus.blocks.length →
    (∀ i, i < j → slotReusable (bus.blocks.getD (iBlock + i) Option.none) = true) →
    (Bus.addBlocksLoop bus type Option.none (iBlock * bus.blockSize)
        (j * bus.blockSize + rest) offset iBlock gas).2 = false ∧
    (∀ idx, (Bus.addBlocksLoop bus type Option.none (iBlock * bus.blockSize)
        (j * bus.blockSize + rest) offset iBlock gas).1.blocks.getD idx
        Option.none =
      if iBlock ≤ idx ∧ idx < iBlock + j then
        Option.some (Memory.init (Option.some (idx * bus.blockSize))
          bus.blockSize type bus.dataWidth bus.littleEndian bus.busStatic
          Option.none)
      else bus.blocks.getD idx Option.none) := by
  induction j with
  | zero =>
    intro bus iBlock offset rest gas hgas hbs hr1 hr2 hlen hslots
    rw [Nat.zero_mul, Nat.zero_add,
      addBlocksLoop_partial bus type Option.none rest offset iBlock gas
        (by omega) hr1 hr2 (by omega)]
    refine ⟨rfl, fun idx => ?_⟩
    rw [if_neg (by omega)]
  | succ k ih =>
    intro bus iBlock offset rest gas hgas hbs hr1 hr2 hlen hslots
    obtain ⟨g, rfl⟩ : ∃ g, gas = g + 1 := ⟨gas - 1, by omega⟩
    have hmul : bus.blockSize ≤ (k + 1) * bus.blockSize := by
      have := Nat.le_mul_of_pos_left bus.blockSize (show 0 < k + 1 by omega)
      omega
    have hstep := addBlocksLoop_step bus type
      ((k + 1) * bus.blockSize + rest) offset iBlock g hbs (by omega)
      (by simpa using hslots 0 (by omega)) (by omega)
    rw [hstep]
    have hsub : (k + 1) * bus.blockSize + rest - bus.blockSize =
        k * bus.blockSize + rest := by
      have : (k + 1) * bus.blockSize = k * bus.blockSize + bus.blockSize := by
        ring
      omega
    rw [hsub]
    have hlen2 : iBlock < bus.blocks.length := by omega
    obtain ⟨ht, hchar⟩ := ih
      { bus with blocks := bus.blocks.set iBlock (Option.some
          (Memory.init (Option.some (iBlock * bus.blockSize)) bus.blockSize
            type bus.dataWidth bus.littleEndian bus.busStatic Option.none)) }
      (iBlock + 1) (offset + bus.blockSize) rest g (by omega) hbs hr1 hr2
      (by simpa using (by omega : iBlock + 1 + k < bus.blocks.length))
      (by
        intro i hi
        dsimp only
        rw [listGetD_set _ _ _ _ _ hlen2, if_neg (by omega)]
        have := hslots (i + 1) (by omega)
        simpa [Nat.add_assoc, Nat.add_comm 1 i] using this)
    dsimp only at ht hchar
    refine ⟨ht, fun idx => ?_⟩
    rw [hchar idx]
    by_cases h1 : iBlock + 1 ≤ idx ∧ idx < iBlock + 1 + k
    · rw [if_pos h1, if_pos (by omega)]
    · rw [if_neg h1]
      by_cases h2 : iBlock ≤ idx ∧ idx < iBlock + (k + 1)
      · have hidx : idx = iBlock := by omega
        subst hidx
        rw [if_pos h2, listGetD_set _ _ _ _ _ hlen2, if_pos rfl]
      · rw [if_neg h2, listGetD_set _ _ _ _ _ hlen2, if_neg (by omega)]

theorem addBlocksLoop_hit_occupied (type : MemType) (j : Nat) :
    ∀ (bus : Bus) (iBlock offset rest gas : Nat), j < gas →
    0 < bus.blockSize → bus.blockSize ≤ rest →
    iBlock + j < bus.blocks.length →
    (∀ i, i < j → slotReusable (bus.blocks.getD (iBlock + i) Option.none) = true) →
    slotReusable (bus.blocks.getD (iBlock + j) Option.none) = false →
    (Bus.addBlocksLoop bus type Option.none (iBlock * bus.blockSize)
        (j * bus.blockSize + rest) offset iBlock gas).2 = false ∧
    (∀ idx, (Bus.addBlocksLoop bus type Option.none (iBlock * bus.blockSize)
        (j * bus.blockSize + rest) offset iBlock gas).1.blocks.getD idx
        Option.none =
      if iBlock ≤ idx ∧ idx < iBlock + j then
        Option.some (Memory.init (Option.some (idx * bus.blockSize))
          bus.blockSize type bus.dataWidth bus.littleEndian bus.busStatic
          Option.none)
      else bus.blocks.getD idx Option.none) := by
  induction j with
  | zero =>
    intro bus iBlock offset rest gas hgas hbs hr hlen hslots hocc
    rw [Nat.zero_mul, Nat.zero_add,
      addBlocksLoop_occupied bus type Option.none rest offset iBlock gas
        (by omega) hr hbs (by omega) (by simpa using hocc)]
    refine ⟨rfl, fun idx => ?_⟩
    rw [if_neg (by omega)]
  | succ k ih =>
    intro bus iBlock offset rest gas hgas hbs hr hlen hslots hocc
    obtain ⟨g, rfl⟩ : ∃ g, gas = g + 1 := ⟨gas - 1, by omega⟩
    have hmul : bus.blockSize ≤ (k + 1) * bus.blockSize := by
      have := Nat.le_mul_of_pos_left bus.blockSize (show 0 < k + 1 by omega)
      omega
    have hstep := addBlocksLoop_step bus type
      ((k + 1) * bus.blockSize + rest) offset iBlock g hbs (by omega)
      (by simpa using hslots 0 (by omega)) (by omega)
    rw [hstep]
    have hsub : (k + 1) * bus.blockSize + rest - bus.blockSize =
        k * bus.blockSize + rest := by
      have : (k + 1) * bus.blockSize = k * bus.blockSize + bus.blockSize := by
        ring
      omega
    rw [hsub]
    have hlen2 : iBlock < bus.blocks.length := by omega
    obtain ⟨ht, hchar⟩ := ih
      { bus with blocks := bus.blocks.set iBlock (Option.some
          (Memory.init (Option.some (iBlock * bus.blockSize)) bus.blockSize
            type bus.dataWidth bus.littleEndian bus.busStatic Option.none)) }
      (iBlock + 1) (offset + bus.blockSize) rest g (by omega) hbs hr
      (by simpa using (by omega : iBlock + 1 + k < bus.blocks.length))
      (by
        intro i hi
        dsimp only
        rw [listGetD_set _ _ _ _ _ hlen2, if_neg (by omega)]
        have := hslots (i + 1) (by omega)
        simpa [Nat.add_assoc, Nat.add_comm 1 i] using this)
      (by
        dsimp only
        rw [listGetD_set _ _ _ _ _ hlen2, if_neg (by omega)]
        have := hocc
        simpa [Nat.add_assoc, Nat.add_comm 1 k] using this)
    dsimp only at ht hchar
    refine ⟨ht, fun idx => ?_⟩
    rw [hchar idx]
    by_cases h1 : iBlock + 1 ≤ idx ∧ idx < iBlock + 1 + k
    · rw [if_pos h1, if_pos (by omega)]
    · rw [if_neg h1]
      by_cases h2 : iBlock ≤ idx ∧ idx < iBlock + (k + 1)
      · have hidx : idx = iBlock := by omega
        subst hidx
        rw [if_pos h2, listGetD_set _ _ _ _ _ hlen2, if_pos rfl]
      · rw [if_neg h2, listGetD_set _ _ _ _ _ hlen2, if_neg (by omega)]

set_option maxRecDepth 10000 in
/-- C2 counterexample: on a bus whose `blockSize` is 16, the block-aligned
request `addBlocks(0, 8, READWRITE)` has a final partial slot that is
smaller than `blockSize` and exactly fills to `addr + size = 8`, yet it
returns `false` — the loop rejects every slot whose size is not a full
`blockSize`, final partial slots included. -/
theorem bus_addBlocks_partial_cex :
    0 % (Bus.init false 4 8 Option.none true).blockSize = 0 ∧
    0 + 8 < (Bus.init false 4 8 Option.none true).blockSize ∧
    ((Bus.init false 4 8 Option.none true).addBlocks 0 8 MemType.readwrite
      Option.none).2 = false := by
  decide

/-- C2 (amended): `addBlocks(addr, size, type)` (no preallocated block)
returns false when `addr` is not `blockSize`-aligned (failing at the first
slot, leaving every slot unchanged), when any slot portion — the final
partial slot included — is smaller than a full `blockSize`, or when a
target slot holds a non-NONE block; slots written before the failing slot
remain written and all others are untouched; and it returns true when the
request is aligned, a whole multiple of `blockSize`, within the block
array, and covers only NONE (or empty) slots, overwriting exactly the
covered slots. -/
theorem bus_addBlocks_resolved (bus : Bus) (addr size : Nat) (type : MemType)
    (hpow : bus.blockSize = 2 ^ bus.blockShift) :
    ((addr % bus.blockSize ≠ 0 ∧ 0 < size ∧
        addr / bus.blockSize < bus.blocks.length) →
      bus.addBlocks addr size type Option.none = (bus, false)) ∧
    (∀ j, (addr % bus.blockSize = 0 ∧ size = j * bus.blockSize ∧
        addr / bus.blockSize + j ≤ bus.blocks.length ∧
        (∀ i, i < j → slotReusable (bus.blocks.getD (addr / bus.blockSize + i)
          Option.none) = true)) →
      ((bus.addBlocks addr size type Option.none).2 = true ∧
       ∀ idx, (bus.addBlocks addr size type Option.none).1.blocks.getD idx
          Option.none =
        if addr / bus.blockSize ≤ idx ∧ idx < addr / bus.blockSize + j then
          Option.some (Memory.init (Option.some (idx * bus.blockSize))
            bus.blockSize type bus.dataWidth bus.littleEndian bus.busStatic
            Option.none)
        else bus.blocks.getD idx Option.none)) ∧
    (∀ j rest, (addr % bus.blockSize = 0 ∧ size = j * bus.blockSize + rest ∧
        0 < rest ∧ rest < bus.blockSize ∧
        addr / bus.blockSize + j < bus.blocks.length ∧
        (∀ i, i < j → slotReusable (bus.blocks.getD (addr / bus.blockSize + i)
          Option.none) = true)) →
      ((bus.addBlocks addr size type Option.none).2 = false ∧
       ∀ idx, (bus.addBlocks addr size type Option.none).1.blocks.getD idx
          Option.none =
        if addr / bus.blockSize ≤ idx ∧ idx < addr / bus.blockSize + j then
          Option.some (Memory.init (Option.some (idx * bus.blockSize))
            bus.blockSize type bus.dataWidth bus.littleEndian bus.busStatic
            Option.none)
        else bus.blocks.getD idx Option.none)) ∧
    (∀ j rest, (addr % bus.blockSize = 0 ∧ size = j * bus.blockSize + rest ∧
        bus.blockSize ≤ rest ∧
        addr / bus.blockSize + j < bus.blocks.length ∧
        (∀ i, i < j → slotReusable (bus.blocks.getD (addr / bus.blockSize + i)
          Option.none) = true) ∧
        slotReusable (bus.blocks.getD (addr / bus.blockSize + j)
          Option.none) = false) →
      ((bus.addBlocks addr size type Option.none).2 = false ∧
       ∀ idx, (bus.addBlocks addr size type Option.none).1.blocks.getD idx
          Option.none =
        if addr / bus.blockSize ≤ idx ∧ idx < addr / bus.blockSize + j then
          Option.some (Memory.init (Option.some (idx * bus.blockSize))
            bus.blockSize type bus.dataWidth bus.littleEndian bus.busStatic
            Option.none)
        else bus.blocks.getD idx Option.none)) := by
  have hbs : 0 < bus.blockSize := by
    rw [hpow]
    exact Nat.pos_pow_of_pos _ (by omega)
  have hsh : addr >>> bus.blockShift = addr / bus.blockSize := by
    rw [Nat.shiftRight_eq_div_pow, ← hpow]
  refine ⟨?_, ?_, ?_, ?_⟩
  · rintro ⟨hmod, hsz, hlen⟩
    unfold Bus.addBlocks
    rw [hsh]
    apply addBlocksLoop_misaligned bus type Option.none addr size 0
      (addr / bus.blockSize) (bus.blocks.length + 1) (by omega) hsz hlen
    intro heq
    have hdm := Nat.div_add_mod addr bus.blockSize
    rw [Nat.mul_comm] at heq
    omega
  · rintro j ⟨halign, hsize, hlen, hslots⟩
    subst hsize
    obtain ⟨q, rfl⟩ : ∃ q, addr = q * bus.blockSize :=
      ⟨addr / bus.blockSize,
       (Nat.div_mul_cancel (Nat.dvd_of_mod_eq_zero halign)).symm⟩
    have hq : q * bus.blockSize / bus.blockSize = q := Nat.mul_div_cancel q hbs
    rw [hq] at hlen hslots ⊢
    unfold Bus.addBlocks
    rw [hsh, hq]
    exact addBlocksLoop_success type j bus q 0 (bus.blocks.length + 1)
      (by omega) hbs hlen hslots
  · rintro j rest ⟨halign, hsize, hr1, hr2, hlen, hslots⟩
    subst hsize
    obtain ⟨q, rfl⟩ : ∃ q, addr = q * bus.blockSize :=
      ⟨addr / bus.blockSize,
       (Nat.div_mul_cancel (Nat.dvd_of_mod_eq_zero halign)).symm⟩
    have hq : q * bus.blockSize / bus.blockSize = q := Nat.mul_div_cancel q hbs
    rw [hq] at hlen hslots ⊢
    unfold Bus.addBlocks
    rw [hsh, hq]
    exact addBlocksLoop_tail_partial type j bus q 0 rest
      (bus.blocks.length + 1) (by omega) hbs hr1 hr2 hlen hslots
  · rintro j rest ⟨halign, hsize, hr, hlen, hslots, hocc⟩
    subst hsize
    obtain ⟨q, rfl⟩ : ∃ q, addr = q * bus.blockSize :=
      ⟨addr / bus.blockSize,
       (Nat.div_mul_cancel (Nat.dvd_of_mod_eq_zero halign)).symm⟩
    have hq : q * bus.blockSize / bus.blockSize = q := Nat.mul_div_cancel q hbs
    rw [hq] at hlen hslots hocc ⊢
    unfold Bus.addBlocks
    rw [hsh, hq]
    exact addBlocksLoop_hit_occupied type j bus q 0 rest
      (bus.blocks.length + 1) (by omega) hbs hr hlen hslots hocc

set_option maxRecDepth 100000 in
/-- Closed witness for C2 (amended), instantiating the spec's boundary case:
`addBlocks(500, 1024)` on a 16-bit, 1024-byte-block bus returns false and
leaves the bus — every slot included — unchanged. -/
theorem bus_addBlocks_resolved_witness :
    (Bus.init false 16 8 Option.none true).addBlocks 500 1024
      MemType.readwrite Option.none =
      (Bus.init false 16 8 Option.none true, false) :=
  (bus_addBlocks_resolved (Bus.init false 16 8 Option.none true) 500 1024
    MemType.readwrite (by decide)).1 (by decide)

/-!
## Time (time.js) — the cycle scheduler

Cycle counts stay integral in the source (budgets come from `Math.ceil` or
`|0`, bursts subtract device-executed cycle counts, `-1` is the dormant
timer sentinel), so they are `Int`; multipliers, MHz values and the
frame-deposit accumulator are fractional JS numbers, modelled as `Rat`.
External collaborators are parameters, not state: a clocked device is a
function `Int → Except Nat Nat` from requested cycles to executed cycles
(`uint` per the `startClock` interface; the spec's ClockedDevice contract)
or a thrown error, and timer callbacks are opaque ids whose synchronous
invocations `notifyTimers` reports as a trace list in invocation order.
Wall-clock bookkeeping (`Date.now()` timestamps in `startRun`/`stopRun`,
`calcSpeed`, rest-time computation) is real time and is not modelled; no
claim below depends on it.  `update()` only repaints bindings and notifies
external devices, and is the identity here.  The `doBurst` and `runCycles`
loops carry explicit fuel so the recursion is structural; `doBurst` always
gets enough fuel (each pass over a device consumes at least one remaining
cycle), and for `runCycles` the fuel only bounds how many burst iterations
are modelled.
-/

structure Timer where
  id : String
  callBack : Nat
  msAuto : Rat
  nCyclesLeft : Int
deriving DecidableEq, Repr, Inhabited

structure TimeState where
  nCyclesPerSecond : Rat
  nYieldsPerSecond : Rat
  nYieldsPerUpdate : Rat
  msYield : Rat
  fClockByFrame : Bool
  fRequestAnimationFrame : Bool
  nBaseMultiplier : Rat
  nCurrentMultiplier : Rat
  nTargetMultiplier : Rat
  mhzBase : Rat
  mhzCurrent : Rat
  mhzTarget : Rat
  nCyclesPerYield : Rat
  nYields : Int
  aTimers : List Timer
  fRunning : Bool
  fYield : Bool
  nStepping : Int
  idRunTimeout : Nat
  idStepTimeout : Nat
  idAnimation : Nat
  nCyclesLife : Int
  nCyclesRun : Int
  nCyclesThisRun : Int
  nCyclesBurst : Int
  nCyclesRemain : Int
  nCyclesDeposited : Rat
  nCyclesDepositPerFrame : Rat
deriving Repr

/-- A clocked device: `startClock(nCycles)` returns the executed cycle count
(a `uint` per the interface) or throws. -/
def ClockBeh : Type := Int → Except Nat Nat

/-- `getCyclesPerMS(ms)`: `Math.ceil(nCyclesPerSecond * nCurrentMultiplier
/ 1000 * ms)`. -/
def Time.getCyclesPerMS (s : TimeState) (ms : Rat) : Int :=
  (s.nCyclesPerSecond * s.nCurrentMultiplier / 1000 * ms).ceil

/-- The JS `| 0` coercion (ToInt32): truncate toward zero, then wrap into
the signed 32-bit range. -/
def jsToInt32 (q : Rat) : Int :=
  let t : Int := if q < 0 then -((-q).floor) else q.floor
  let w := t.emod 4294967296
  if w ≥ 2147483648 then w - 4294967296 else w

/-- The budget computation of `getCyclesPerRun` before the timer loop: the
frame-deposit withdrawal when clocking by animation frames, otherwise one
yield interval's worth of cycles. -/
def Time.runBudget (s : TimeState) (fAnimation : Bool) : Int × TimeState :=
  if fAnimation then
    let n0 : Rat := s.nCyclesDeposited
    let p1 : Rat × TimeState :=
      if n0 < 1 then
        (s.nCyclesDeposited + s.nCyclesDepositPerFrame,
         { s with nCyclesDeposited :=
             s.nCyclesDeposited + s.nCyclesDepositPerFrame })
      else (n0, s)
    let p2 : Rat × TimeState :=
      if p1.1 < 0 then ((0 : Rat), { p1.2 with nCyclesDeposited := 0 })
      else p1
    (jsToInt32 p2.1, p2.2)
  else (Time.getCyclesPerMS s s.msYield, s)

/-- The timer loop of `getCyclesPerRun`: clamp the budget to every armed
timer's remaining countdown, scanning timers in reverse registration
order. -/
def Time.timerCycleClamp (nCycles : Int) (timers : List Timer) : Int :=
  timers.reverse.foldl
    (fun nc t =>
      if t.nCyclesLeft < 0 then nc
      else if nc > t.nCyclesLeft then t.nCyclesLeft else nc)
    nCycles

/-- `getCyclesPerRun(fAnimation, nMinCycles)`. -/
def Time.getCyclesPerRun (s : TimeState) (fAnimation : Bool)
    (nMinCycles : Int) : Int × TimeState :=
  if nMinCycles ≠ 0 then
    (nMinCycles,
     { s with nCyclesDeposited := s.nCyclesDeposited + (nMinCycles : Rat) })
  else
    let p := Time.runBudget s fAnimation
    (Time.timerCycleClamp p.1 p.2.aTimers, p.2)

/-- `yield()`: requests a yield and advances the periodic-update counter
(`update()` itself is external). -/
def Time.yield (s : TimeState) : TimeState :=
  let s1 := { s with fYield := true }
  let nCyclesPerSecond := Time.getCyclesPerMS s1 1000
  let nYields' :=
    if (nCyclesPerSecond : Rat) ≥ s1.nYieldsPerSecond then s1.nYields + 1
    else s1.nYields + (s1.nYieldsPerSecond / (nCyclesPerSecond : Rat)).ceil
  let s2 := { s1 with nYields := nYields' }
  if (s2.nYields : Rat) ≥ s2.nYieldsPerSecond then { s2 with nYields := 0 }
  else s2

/-- The `fClockByFrame` half of `endBurst`: the frame-deposit withdrawal
(the `stopClock` notifications to external devices on the stopped path are
not modelled), yielding when the balance drops below one cycle. -/
def Time.endBurstDeposit (s : TimeState) (nCycles : Int) : TimeState :=
  if s.fClockByFrame then
    let sa := if ¬s.fRunning
      then { s with nCyclesDeposited := (nCycles : Rat) } else s
    let dep := sa.nCyclesDeposited - (nCycles : Rat)
    let sb := { sa with nCyclesDeposited := dep }
    if sb.nCyclesDeposited < 1 then Time.yield sb else sb
  else s

/-- `endBurst(nCycles)`: deposit accounting, then commit the executed
cycles to the running counters. -/
def Time.endBurst (s : TimeState) (nCycles : Int) : TimeState × Int :=
  let s1 := Time.endBurstDeposit s nCycles
  let s2 := { s1 with
    nCyclesBurst := 0, nCyclesRemain := 0,
    nCyclesThisRun := s1.nCyclesThisRun + nCycles,
    nCyclesRun := s1.nCyclesRun + nCycles,
    nCyclesLife := s1.nCyclesLife + nCycles }
  let s3 := if ¬s2.fRunning then { s2 with nCyclesRun := 0 } else s2
  (s3, nCycles)

/-- `endBurst()` with its default argument `nCyclesBurst - nCyclesRemain`. -/
def Time.endBurstAuto (s : TimeState) : TimeState × Int :=
  Time.endBurst s (s.nCyclesBurst - s.nCyclesRemain)

/-- `setTimer(iTimer, ms, fReset)`: arm a timer for `ms` milliseconds at
the current multiplier, biased by the cycles the in-progress burst already
executed (via `endBurst()`) when running. -/
def Time.setTimer (s : TimeState) (iTimer : Nat) (ms : Rat) (fReset : Bool) :
    TimeState × Int :=
  if 0 < iTimer ∧ iTimer ≤ s.aTimers.length then
    let timer := s.aTimers.getD (iTimer - 1) default
    if fReset ∨ timer.nCyclesLeft < 0 then
      let nCycles := Time.getCyclesPerMS s ms
      let p : TimeState × Int :=
        if s.fRunning then
          let q := Time.endBurstAuto s
          (q.1, nCycles + q.2)
        else (s, nCycles)
      let armed := p.1.aTimers.set (iTimer - 1) { timer with nCyclesLeft := p.2 }
      ({ p.1 with aTimers := armed }, p.2)
    else (s, -1)
  else (s, -1)

/-- `addTimer(id, callBack, msAuto)`: appends a dormant timer and arms it at
once when an auto-interval is given. -/
def Time.addTimer (s : TimeState) (id : String) (callBack : Nat)
    (msAuto : Rat) : TimeState × Nat :=
  let iTimer := s.aTimers.length + 1
  let s1 := { s with aTimers := s.aTimers ++ [⟨id, callBack, msAuto, -1⟩] }
  if msAuto ≥ 0 then ((Time.setTimer s1 iTimer msAuto false).1, iTimer)
  else (s1, iTimer)

/-- The `for (iTimer = aTimers.length; iTimer > 0; iTimer--)` body of
`notifyTimers`: processes timer index `i` (0-based `i - 1`) and recurses
downward, returning the updated state and the callback ids invoked, in
invocation order. -/
def Time.notifyLoop (s : TimeState) (nCycles : Int) :
    Nat → TimeState × List Nat
  | 0 => (s, [])
  | i + 1 =>
    let timer := s.aTimers.getD i default
    if timer.nCyclesLeft < 0 then Time.notifyLoop s nCycles i
    else
      let left := timer.nCyclesLeft - nCycles
      if left ≤ 0 then
        let dormant := s.aTimers.set i { timer with nCyclesLeft := -1 }
        let s1 := { s with aTimers := dormant }
        let s2 := if timer.msAuto ≥ 0
          then (Time.setTimer s1 (i + 1) timer.msAuto false).1 else s1
        let p := Time.notifyLoop s2 nCycles i
        (p.1, timer.callBack :: p.2)
      else
        let decremented := s.aTimers.set i { timer with nCyclesLeft := left }
        Time.notifyLoop { s with aTimers := decremented } nCycles i

/-- `notifyTimers(nCycles)`: decrement every armed timer by the executed
cycles (only when at least one cycle ran), firing and re-arming as the
countdowns elapse, in reverse registration order. -/
def Time.notifyTimers (s : TimeState) (nCycles : Int) :
    TimeState × List Nat :=
  if nCycles ≥ 1 then Time.notifyLoop s nCycles s.aTimers.length else (s, [])

/-- The `while (nCyclesRemain > 0)` loop of `doBurst`: round-robin over the
clocked devices, re-requesting each device's returned count (`|| 1` turns a
falsy return into one cycle) from the next, wrapping `iClock`; a thrown
device exception aborts the loop, carrying the mid-burst state.  Every pass
with `iClock < clocks.length` consumes at least one remaining cycle, so the
fuel `doBurst` supplies cannot run out first. -/
def Time.doBurstLoop (clocks : List ClockBeh) (s : TimeState) (nCycles : Int)
    (iClock : Nat) : Nat → Except (Nat × TimeState) TimeState
  | 0 => Except.ok s
  | gas + 1 =>
    if s.nCyclesRemain > 0 then
      if h : iClock < clocks.length then
        match clocks.get ⟨iClock, h⟩ nCycles with
        | Except.error e => Except.error (e, s)
        | Except.ok r =>
          let r' : Int := if r = 0 then 1 else (r : Int)
          Time.doBurstLoop clocks
            { s with nCyclesRemain := s.nCyclesRemain - r' } r' (iClock + 1)
            gas
      else Time.doBurstLoop clocks s 0 0 gas
    else Except.ok s

/-- `doBurst(nCycles)`: with no clocked devices the whole budget counts as
executed; otherwise run the device loop and report the cycles actually
executed. -/
def Time.doBurst (clocks : List ClockBeh) (s : TimeState) (nCycles : Int) :
    Except (Nat × TimeState) (TimeState × Int) :=
  let s1 := { s with nCyclesBurst := nCycles, nCyclesRemain := nCycles }
  if clocks.length = 0 then
    Except.ok ({ s1 with nCyclesRemain := 0 }, s1.nCyclesBurst)
  else
    match Time.doBurstLoop clocks s1 nCycles 0 (2 * nCycles.toNat + 3) with
    | Except.error e => Except.error e
    | Except.ok s2 => Except.ok (s2, s2.nCyclesBurst - s2.nCyclesRemain)

/-- `calcCycles()`: cap the effective multiplier by the target (`!nMultiplier`
is the zero test; a zero `mhzBase` makes the quotient zero here, where JS
would produce NaN, which is also replaced). -/
def Time.calcCycles (s : TimeState) : TimeState :=
  let nMultiplier0 := s.mhzCurrent / s.mhzBase
  let nMultiplier :=
    if nMultiplier0 = 0 ∨ nMultiplier0 > s.nTargetMultiplier
    then s.nTargetMultiplier else nMultiplier0
  { s with
    nCyclesPerYield := s.nCyclesPerSecond / s.nYieldsPerSecond * nMultiplier,
    nCurrentMultiplier := nMultiplier }

/-- `startRun()` without the wall-clock throttling bookkeeping. -/
def Time.startRun (s : TimeState) : TimeState :=
  { Time.calcCycles s with nCyclesThisRun := 0 }

/-- `stop()`: a running scheduler is stopped, committing the in-progress
burst accounting and cancelling the pending timeout/animation
registrations; a stepping scheduler just clears its step count.  `update`
notifications are external. -/
def Time.stop (s : TimeState) : TimeState × Bool :=
  if s.fRunning then
    let s1 := { s with fRunning := false }
    let s2 := (Time.endBurstAuto s1).1
    let s3 := if s2.idRunTimeout ≠ 0 then { s2 with idRunTimeout := 0 } else s2
    let s4 := if s3.idAnimation ≠ 0 then { s3 with idAnimation := 0 } else s3
    (s4, true)
  else if s.nStepping ≠ 0 then ({ s with nStepping := 0 }, true)
  else (s, false)

/-- The `do { ... } while (fRunning && !fYield)` body of `runCycles`,
threading a thrown device exception out with the state it left behind.
`fuel` bounds how many burst iterations are modelled. -/
def Time.runCyclesLoop (clocks : List ClockBeh) (fAnimation : Bool) :
    Nat → TimeState → Except (Nat × TimeState) TimeState
  | 0, s => Except.ok s
  | fuel + 1, s =>
    let p := Time.getCyclesPerRun s fAnimation 0
    match Time.doBurst clocks p.2 p.1 with
    | Except.error e => Except.error e
    | Except.ok (s2, executed) =>
      let q := Time.endBurst s2 executed
      let s3 := (Time.notifyTimers q.1 q.2).1
      if s3.fRunning = true ∧ s3.fYield = false then
        Time.runCyclesLoop clocks fAnimation fuel s3
      else Except.ok s3

/-- `runCycles(fAnimation)`: the run loop inside its `try`/`catch` — an
exception from a clocked device is caught here, reported (`println`, not
modelled), and turned into an implicit `stop()`; the wall-clock rest-time
computation of `stopRun()` is external. -/
def Time.runCycles (clocks : List ClockBeh) (s : TimeState)
    (fAnimation : Bool) (fuel : Nat) : TimeState :=
  let s1 := { Time.startRun s with fYield := false }
  match Time.runCyclesLoop clocks fAnimation fuel s1 with
  | Except.ok s2 => s2
  | Except.error (_e, s2) => (Time.stop s2).1

/-- `start()`: refuse when running or stepping, otherwise enter the running
state and register the run timeout / animation frame (modelled as nonzero
handles). -/
def Time.start (s : TimeState) : TimeState × Bool :=
  if s.fRunning = true ∨ s.nStepping ≠ 0 then (s, false)
  else
    let s1 := { s with fRunning := true }
    let s2 := if ¬s1.fClockByFrame then { s1 with idRunTimeout := 1 } else s1
    let s3 := if s2.fRequestAnimationFrame then { s2 with idAnimation := 1 }
      else s2
    (s3, true)

/-- `step(nRepeat)`: refused while running; otherwise loads the step count
when idle, executes one minimum-cycle burst with timer accounting, and
schedules its own continuation while steps remain.  `step` has no
`try`/`catch`, so a device exception propagates (as `Except.error` with the
mutated state). -/
def Time.step (clocks : List ClockBeh) (s : TimeState) (nRepeat : Int) :
    Except (Nat × TimeState) (TimeState × Bool) :=
  if s.fRunning = false then
    let s1 := if nRepeat ≠ 0 ∧ s.nStepping = 0
      then { s with nStepping := nRepeat } else s
    if s1.nStepping ≠ 0 then
      let s2 := { s1 with nStepping := s1.nStepping - 1 }
      let p := Time.getCyclesPerRun s2 true 1
      match Time.doBurst clocks p.2 p.1 with
      | Except.error e => Except.error e
      | Except.ok (s3, executed) =>
        let q := Time.endBurst s3 executed
        let s4 := (Time.notifyTimers q.1 q.2).1
        if s4.nStepping ≠ 0 then
          Except.ok ({ s4 with idStepTimeout := 1 }, true)
        else Except.ok (s4, true)
    else Except.ok (s1, true)
  else Except.ok (s, false)

theorem clampFold_le (l : List Timer) : ∀ init : Int,
    (l.foldl (fun nc t =>
        if t.nCyclesLeft < 0 then nc
        else if nc > t.nCyclesLeft then t.nCyclesLeft else nc) init ≤ init) ∧
    (∀ t, t ∈ l → 0 ≤ t.nCyclesLeft →
      l.foldl (fun nc t =>
        if t.nCyclesLeft < 0 then nc
        else if nc > t.nCyclesLeft then t.nCyclesLeft else nc) init ≤
        t.nCyclesLeft) := by
  induction l with
  | nil => simp
  | cons a l ih =>
    intro init
    constructor
    · refine le_trans ((ih _).1) ?_
      dsimp only
      split_ifs <;> omega
    · intro t ht harm
      rcases List.mem_cons.mp ht with rfl | htl
      · refine le_trans ((ih _).1) ?_
        dsimp only
        split_ifs <;> omega
      · exact (ih _).2 t htl harm

theorem runBudget_aTimers (s : TimeState) (fAnimation : Bool) :
    (Time.runBudget s fAnimation).2.aTimers = s.aTimers := by
  unfold Time.runBudget
  split
  · dsimp only
    split_ifs <;> rfl
  · rfl

/-- C6: with no minimum-cycle override, the cycle budget `getCyclesPerRun`
computes for a run segment never exceeds any armed timer's remaining
countdown (hence not the smallest one), and never exceeds the raw budget
derived from the configured rate (the frame deposit or the per-yield cycle
allotment) before the timer clamp. -/
theorem time_cycles_per_run_bound (s : TimeState) (fAnimation : Bool)
    (t : Timer) (ht : t ∈ s.aTimers) (harm : 0 ≤ t.nCyclesLeft) :
    (Time.getCyclesPerRun s fAnimation 0).1 ≤ t.nCyclesLeft ∧
    (Time.getCyclesPerRun s fAnimation 0).1 ≤
      (Time.runBudget s fAnimation).1 := by
  unfold Time.getCyclesPerRun
  rw [if_neg (by simp)]
  dsimp only
  rw [runBudget_aTimers]
  unfold Time.timerCycleClamp
  constructor
  · exact (clampFold_le s.aTimers.reverse _).2 t (List.mem_reverse.mpr ht) harm
  · exact (clampFold_le s.aTimers.reverse _).1

/-- A concrete scheduler state used by the closed witnesses: frame-clocked,
one armed timer five cycles from firing and one dormant timer, three cycles
banked in the frame-deposit accumulator. -/
def sampleTime : TimeState :=
  { nCyclesPerSecond := 650000, nYieldsPerSecond := 120,
    nYieldsPerUpdate := 60, msYield := 8, fClockByFrame := true,
    fRequestAnimationFrame := true, nBaseMultiplier := 1,
    nCurrentMultiplier := 1, nTargetMultiplier := 1, mhzBase := 1,
    mhzCurrent := 0, mhzTarget := 1, nCyclesPerYield := 0, nYields := 0,
    aTimers := [⟨"t1", 1, -1, 5⟩, ⟨"t2", 2, -1, -1⟩], fRunning := true,
    fYield := false, nStepping := 0, idRunTimeout := 0, idStepTimeout := 0,
    idAnimation := 0, nCyclesLife := 0, nCyclesRun := 0, nCyclesThisRun := 0,
    nCyclesBurst := 0, nCyclesRemain := 0, nCyclesDeposited := 3,
    nCyclesDepositPerFrame := 2 }

/-- Closed witness for C6: on `sampleTime` the armed timer is five cycles
away, and the computed animation-frame budget stays at or below five. -/
theorem time_cycles_per_run_bound_witness :
    (⟨"t1", 1, -1, 5⟩ : Timer) ∈ sampleTime.aTimers ∧
    (Time.getCyclesPerRun sampleTime true 0).1 ≤ 5 := by
  refine ⟨by decide, ?_⟩
  exact (time_cycles_per_run_bound sampleTime true ⟨"t1", 1, -1, 5⟩
    (by decide) (by decide)).1

theorem yield_fields (s : TimeState) :
    (Time.yield s).aTimers = s.aTimers ∧
    (Time.yield s).nCyclesPerSecond = s.nCyclesPerSecond ∧
    (Time.yield s).nCurrentMultiplier = s.nCurrentMultiplier ∧
    (Time.yield s).nCyclesBurst = s.nCyclesBurst ∧
    (Time.yield s).nCyclesRemain = s.nCyclesRemain ∧
    (Time.yield s).fRunning = s.fRunning ∧
    (Time.yield s).nCyclesThisRun = s.nCyclesThisRun ∧
    (Time.yield s).nCyclesRun = s.nCyclesRun ∧
    (Time.yield s).nCyclesLife = s.nCyclesLife ∧
    (Time.yield s).nStepping = s.nStepping := by
  unfold Time.yield
  dsimp only
  split_ifs <;>
    exact ⟨rfl, rfl, rfl, rfl, rfl, rfl, rfl, rfl, rfl, rfl⟩

theorem endBurstDeposit_fields (s : TimeState) (n : Int) :
    (Time.endBurstDeposit s n).aTimers = s.aTimers ∧
    (Time.endBurstDeposit s n).nCyclesPerSecond = s.nCyclesPerSecond ∧
    (Time.endBurstDeposit s n).nCurrentMultiplier = s.nCurrentMultiplier ∧
    (Time.endBurstDeposit s n).nCyclesBurst = s.nCyclesBurst ∧
    (Time.endBurstDeposit s n).nCyclesRemain = s.nCyclesRemain ∧
    (Time.endBurstDeposit s n).fRunning = s.fRunning ∧
    (Time.endBurstDeposit s n).nCyclesThisRun = s.nCyclesThisRun ∧
    (Time.endBurstDeposit s n).nCyclesRun = s.nCyclesRun ∧
    (Time.endBurstDeposit s n).nCyclesLife = s.nCyclesLife ∧
    (Time.endBurstDeposit s n).nStepping = s.nStepping := by
  unfold Time.endBurstDeposit
  dsimp only
  split_ifs
  all_goals
    first
      | exact ⟨rfl, rfl, rfl, rfl, rfl, rfl, rfl, rfl, rfl, rfl⟩
      | exact yield_fields _

theorem endBurst_fields (s : TimeState) (n : Int) :
    (Time.endBurst s n).1.aTimers = s.aTimers ∧
    (Time.endBurst s n).1.nCyclesPerSecond = s.nCyclesPerSecond ∧
    (Time.endBurst s n).1.nCurrentMultiplier = s.nCurrentMultiplier ∧
    (Time.endBurst s n).1.nCyclesBurst = 0 ∧
    (Time.endBurst s n).1.nCyclesRemain = 0 ∧
    (Time.endBurst s n).1.fRunning = s.fRunning ∧
    (Time.endBurst s n).2 = n := by
  obtain ⟨h1, h2, h3, _h4, _h5, h6, _⟩ := endBurstDeposit_fields s n
  unfold Time.endBurst
  dsimp only
  rw [h6]
  split_ifs <;> exact ⟨h1, h2, h3, rfl, rfl, rfl, rfl⟩

/-- The per-timer effect of one `notifyTimers` pass, as a function of the
cycle rate and current multiplier: dormant timers are untouched; an armed
timer is decremented, and one whose countdown elapses is set dormant and —
when it has an auto-interval — immediately re-armed for that interval at
the current multiplier (`getCyclesPerMS`). -/
def Time.notifyOne (cps mult : Rat) (n : Int) (t : Timer) : Timer :=
  if t.nCyclesLeft < 0 then t
  else if t.nCyclesLeft - n ≤ 0 then
    (if t.msAuto ≥ 0 then
      { t with nCyclesLeft := (cps * mult / 1000 * t.msAuto).ceil }
     else { t with nCyclesLeft := -1 })
  else { t with nCyclesLeft := t.nCyclesLeft - n }

theorem notify_fire_state (s : TimeState) (i : Nat) (timer : Timer)
    (hi : i < s.aTimers.length)
    (hb : s.nCyclesBurst = 0) (hr : s.nCyclesRemain = 0) :
    (Time.setTimer
        { s with aTimers := s.aTimers.set i { timer with nCyclesLeft := -1 } }
        (i + 1) timer.msAuto false).1.aTimers =
      s.aTimers.set i
        { timer with nCyclesLeft := Time.getCyclesPerMS s timer.msAuto } ∧
    (Time.setTimer
        { s with aTimers := s.aTimers.set i { timer with nCyclesLeft := -1 } }
        (i + 1) timer.msAuto false).1.nCyclesPerSecond = s.nCyclesPerSecond ∧
    (Time.setTimer
        { s with aTimers := s.aTimers.set i { timer with nCyclesLeft := -1 } }
        (i + 1) timer.msAuto false).1.nCurrentMultiplier =
      s.nCurrentMultiplier ∧
    (Time.setTimer
        { s with aTimers := s.aTimers.set i { timer with nCyclesLeft := -1 } }
        (i + 1) timer.msAuto false).1.nCyclesBurst = 0 ∧
    (Time.setTimer
        { s with aTimers := s.aTimers.set i { timer with nCyclesLeft := -1 } }
        (i + 1) timer.msAuto false).1.nCyclesRemain = 0 := by
  unfold Time.setTimer
  have hlen : i + 1 ≤ (s.aTimers.set i { timer with nCyclesLeft := -1 }).length := by
    rw [List.length_set]
    omega
  rw [if_pos ⟨by omega, hlen⟩]
  have hgetD : ((s.aTimers.set i { timer with nCyclesLeft := -1 }).getD
      (i + 1 - 1) default) = { timer with nCyclesLeft := -1 } := by
    simp only [Nat.add_sub_cancel]
    rw [listGetD_set _ _ _ _ _ hi, if_pos rfl]
  dsimp only
  rw [hgetD]
  rw [if_pos (Or.inr (by simp))]
  by_cases hrun : s.fRunning = true
  · rw [if_pos (by simpa using hrun)]
    have hEB := endBurst_fields
      { s with aTimers := s.aTimers.set i { timer with nCyclesLeft := -1 } }
      (s.nCyclesBurst - s.nCyclesRemain)
    dsimp only at hEB ⊢
    unfold Time.endBurstAuto
    dsimp only
    obtain ⟨hT, hC, hM, hB, hR, _hF, hV⟩ := hEB
    refine ⟨?_, ?_, ?_, ?_, ?_⟩
    · rw [hT, hV, hb, hr]
      simp only [Nat.add_sub_cancel]
      rw [List.set_set]
      simp [Time.getCyclesPerMS]
    · rw [hC]
    · rw [hM]
    · rw [hB]
    · rw [hR]
  · rw [if_neg (by simpa using hrun)]
    dsimp only
    refine ⟨?_, rfl, rfl, by simpa using hb, by simpa using hr⟩
    simp only [Nat.add_sub_cancel]
    rw [List.set_set]
    simp [Time.getCyclesPerMS]

theorem notifyLoop_spec (n : Int) : ∀ (k : Nat) (s : TimeState),
    k ≤ s.aTimers.length →
    s.nCyclesBurst = 0 → s.nCyclesRemain = 0 →
    ((Time.notifyLoop s n k).1.aTimers.length = s.aTimers.length ∧
     (Time.notifyLoop s n k).1.nCyclesPerSecond = s.nCyclesPerSecond ∧
     (Time.notifyLoop s n k).1.nCurrentMultiplier = s.nCurrentMultiplier ∧
     (Time.notifyLoop s n k).1.nCyclesBurst = 0 ∧
     (Time.notifyLoop s n k).1.nCyclesRemain = 0 ∧
     (∀ i, k ≤ i → (Time.notifyLoop s n k).1.aTimers.getD i default =
        s.aTimers.getD i default) ∧
     (∀ i, i < k → (Time.notifyLoop s n k).1.aTimers.getD i default =
        Time.notifyOne s.nCyclesPerSecond s.nCurrentMultiplier n
          (s.aTimers.getD i default)) ∧
     (Time.notifyLoop s n k).2 =
       ((List.range k).reverse.filter (fun i =>
          decide (0 ≤ (s.aTimers.getD i default).nCyclesLeft) &&
          decide ((s.aTimers.getD i default).nCyclesLeft - n ≤ 0))).map
         (fun i => (s.aTimers.getD i default).callBack)) := by
  intro k
  induction k with
  | zero =>
    intro s hk hb hr
    rw [Time.notifyLoop]
    exact ⟨rfl, rfl, rfl, hb, hr, fun i _ => rfl, fun i hi => absurd hi
      (by omega), by simp⟩
  | succ k ih =>
    intro s hk hb hr
    have hik : k < s.aTimers.length := by omega
    rw [Time.notifyLoop]
    dsimp only
    by_cases hdor : (s.aTimers.getD k default).nCyclesLeft < 0
    · rw [if_pos hdor]
      obtain ⟨hL, hC, hM, hB, hR, hHigh, hLow, hTr⟩ := ih s (by omega) hb hr
      refine ⟨hL, hC, hM, hB, hR, fun i hi => hHigh i (by omega),
        fun i hi => ?_, ?_⟩
      · by_cases hik2 : i < k
        · exact hLow i hik2
        · have hieq : i = k := by omega
          subst hieq
          rw [hHigh i (by omega), Time.notifyOne, if_pos hdor]
      · rw [hTr, List.range_succ, List.reverse_append]
        simp only [List.reverse_cons, List.reverse_nil, List.nil_append,
          List.cons_append, List.filter_cons]
        have hcond : (decide (0 ≤ (s.aTimers.getD k default).nCyclesLeft) &&
            decide ((s.aTimers.getD k default).nCyclesLeft - n ≤ 0)) = false := by
          simp only [Bool.and_eq_false_iff]
          left
          simpa using hdor
        rw [hcond]
        simp
    · rw [if_neg hdor]
      by_cases hfire : (s.aTimers.getD k default).nCyclesLeft - n ≤ 0
      · rw [if_pos hfire]
        dsimp only
        by_cases hauto : (s.aTimers.getD k default).msAuto ≥ 0
        · rw [if_pos hauto]
          obtain ⟨hT, hC0, hM0, hB0, hR0⟩ :=
            notify_fire_state s k (s.aTimers.getD k default) hik hb hr
          obtain ⟨hL, hC, hM, hB, hR, hHigh, hLow, hTr⟩ :=
            ih (Time.setTimer
                { s with
                  aTimers := s.aTimers.set k
                    { s.aTimers.getD k default with nCyclesLeft := -1 } }
                (k + 1) (s.aTimers.getD k default).msAuto false).1
              (by rw [hT, List.length_set]; omega) hB0 hR0
          have hsame : ∀ i, i < k →
              (Time.setTimer
                { s with
                  aTimers := s.aTimers.set k
                    { s.aTimers.getD k default with nCyclesLeft := -1 } }
                (k + 1) (s.aTimers.getD k default).msAuto
                false).1.aTimers.getD i default =
              s.aTimers.getD i default := by
            intro i hi
            rw [hT, listGetD_set _ _ _ _ _ hik, if_neg (by omega)]
          refine ⟨?_, ?_, ?_, hB, hR, ?_, ?_, ?_⟩
          · rw [hL, hT, List.length_set]
          · rw [hC, hC0]
          · rw [hM, hM0]
          · intro i hi
            rw [hHigh i (by omega), hT, listGetD_set _ _ _ _ _ hik,
              if_neg (by omega)]
          · intro i hi
            by_cases hik2 : i < k
            · rw [hLow i hik2, hC0, hM0, hsame i hik2]
            · have hieq : i = k := by omega
              subst hieq
              rw [hHigh i (by omega), hT, listGetD_set _ _ _ _ _ hik,
                if_pos rfl]
              rw [Time.notifyOne, if_neg hdor, if_pos hfire, if_pos hauto]
              rfl
          · rw [List.range_succ, List.reverse_append]
            simp only [List.reverse_cons, List.reverse_nil, List.nil_append,
              List.cons_append, List.filter_cons]
            have hcond : (decide (0 ≤ (s.aTimers.getD k default).nCyclesLeft) &&
                decide ((s.aTimers.getD k default).nCyclesLeft - n ≤ 0)) =
                true := by
              simp only [Bool.and_eq_true, decide_eq_true_eq]
              exact ⟨by omega, hfire⟩
            rw [hcond, hTr]
            simp only [if_pos rfl, List.map_cons]
            congr 1
            rw [List.filter_congr (fun i hi => by
              rw [hsame i (List.mem_range.mp (List.mem_reverse.mp hi))])]
            exact List.map_congr_left (fun i hi => by
              rw [hsame i (List.mem_range.mp (List.mem_reverse.mp
                (List.mem_filter.mp hi).1))])
        · rw [if_neg hauto]
          obtain ⟨hL, hC, hM, hB, hR, hHigh, hLow, hTr⟩ :=
            ih { s with
                  aTimers := s.aTimers.set k
                    { s.aTimers.getD k default with nCyclesLeft := -1 } }
              (by dsimp only; rw [List.length_set]; omega)
              (by simpa using hb) (by simpa using hr)
          dsimp only at hL hC hM hHigh hLow hTr
          have hsame : ∀ i, i < k →
              (s.aTimers.set k
                { s.aTimers.getD k default with
                  nCyclesLeft := -1 }).getD i default =
              s.aTimers.getD i default := by
            intro i hi
            rw [listGetD_set _ _ _ _ _ hik, if_neg (by omega)]
          refine ⟨?_, hC, hM, hB, hR, ?_, ?_, ?_⟩
          · rw [hL, List.length_set]
          · intro i hi
            rw [hHigh i (by omega), listGetD_set _ _ _ _ _ hik,
              if_neg (by omega)]
          · intro i hi
            by_cases hik2 : i < k
            · rw [hLow i hik2, hsame i hik2]
            · have hieq : i = k := by omega
              subst hieq
              rw [hHigh i (by omega), listGetD_set _ _ _ _ _ hik, if_pos rfl]
              rw [Time.notifyOne, if_neg hdor, if_pos hfire, if_neg hauto]
          · rw [List.range_succ, List.reverse_append]
            simp only [List.reverse_cons, List.reverse_nil, List.nil_append,
              List.cons_append, List.filter_cons]
            have hcond : (decide (0 ≤ (s.aTimers.getD k default).nCyclesLeft) &&
                decide ((s.aTimers.getD k default).nCyclesLeft - n ≤ 0)) =
                true := by
              simp only [Bool.and_eq_true, decide_eq_true_eq]
              exact ⟨by omega, hfire⟩
            rw [hcond, hTr]
            simp only [if_pos rfl, List.map_cons]
            congr 1
            rw [List.filter_congr (fun i hi => by
              rw [hsame i (List.mem_range.mp (List.mem_reverse.mp hi))])]
            exact List.map_congr_left (fun i hi => by
              rw [hsame i (List.mem_range.mp (List.mem_reverse.mp
                (List.mem_filter.mp hi).1))])
      · rw [if_neg hfire]
        obtain ⟨hL, hC, hM, hB, hR, hHigh, hLow, hTr⟩ :=
          ih { s with
                aTimers := s.aTimers.set k
                  { s.aTimers.getD k default with
                    nCyclesLeft := (s.aTimers.getD k default).nCyclesLeft - n } }
            (by dsimp only; rw [List.length_set]; omega)
            (by simpa using hb) (by simpa using hr)
        dsimp only at hL hC hM hHigh hLow hTr
        have hsame : ∀ i, i < k →
            (s.aTimers.set k
              { s.aTimers.getD k default with
                nCyclesLeft := (s.aTimers.getD k default).nCyclesLeft - n
              }).getD i default =
            s.aTimers.getD i default := by
          intro i hi
          rw [listGetD_set _ _ _ _ _ hik, if_neg (by omega)]
        refine ⟨?_, hC, hM, hB, hR, ?_, ?_, ?_⟩
        · rw [hL, List.length_set]
        · intro i hi
          rw [hHigh i (by omega), listGetD_set _ _ _ _ _ hik,
            if_neg (by omega)]
        · intro i hi
          by_cases hik2 : i < k
          · rw [hLow i hik2, hsame i hik2]
          · have hieq : i = k := by omega
            subst hieq
            rw [hHigh i (by omega), listGetD_set _ _ _ _ _ hik, if_pos rfl]
            rw [Time.notifyOne, if_neg hdor, if_neg hfire]
        · rw [List.range_succ, List.reverse_append]
          simp only [List.reverse_cons, List.reverse_nil, List.nil_append,
            List.cons_append, List.filter_cons]
          have hcond : (decide (0 ≤ (s.aTimers.getD k default).nCyclesLeft) &&
              decide ((s.aTimers.getD k default).nCyclesLeft - n ≤ 0)) =
              false := by
            simp only [Bool.and_eq_false_iff]
            right
            simpa using hfire
          rw [hcond, hTr]
          simp only [Bool.false_eq_true, if_false]
          rw [List.filter_congr (fun i hi => by
            rw [hsame i (List.mem_range.mp (List.mem_reverse.mp hi))])]
          exact List.map_congr_left (fun i hi => by
            rw [hsame i (List.mem_range.mp (List.mem_reverse.mp
              (List.mem_filter.mp hi).1))])

/-- C7: after a burst of `n ≥ 1` executed cycles (its accounting already
committed by `endBurst`, so the burst counters are zero), `notifyTimers n`
processes the timers in reverse registration order: every armed timer's
countdown drops by `n`; a timer whose countdown reaches zero or below is
set dormant (`-1`) with its callback invoked synchronously — one-shot
timers stay dormant, while a timer with an auto-interval `msAuto ≥ 0` is
immediately re-armed for that interval converted to cycles at the current
multiplier (`getCyclesPerMS`); dormant timers are untouched.  The callback
trace lists exactly the elapsed timers, in reverse registration order. -/
theorem time_notify_timers (s : TimeState) (n : Int)
    (hn : 1 ≤ n) (hb : s.nCyclesBurst = 0) (hr : s.nCyclesRemain = 0) :
    ((Time.notifyTimers s n).1.aTimers.length = s.aTimers.length) ∧
    (∀ i, i < s.aTimers.length →
      (Time.notifyTimers s n).1.aTimers.getD i default =
        Time.notifyOne s.nCyclesPerSecond s.nCurrentMultiplier n
          (s.aTimers.getD i default)) ∧
    ((Time.notifyTimers s n).2 =
      ((List.range s.aTimers.length).reverse.filter (fun i =>
          decide (0 ≤ (s.aTimers.getD i default).nCyclesLeft) &&
          decide ((s.aTimers.getD i default).nCyclesLeft - n ≤ 0))).map
        (fun i => (s.aTimers.getD i default).callBack)) := by
  unfold Time.notifyTimers
  rw [if_pos (by omega)]
  obtain ⟨hL, _hC, _hM, _hB, _hR, _hHigh, hLow, hTr⟩ :=
    notifyLoop_spec n s.aTimers.length s (le_refl _) hb hr
  exact ⟨hL, hLow, hTr⟩

/-- Closed witness for C7 on `sampleTime` with a five-cycle burst: the
armed five-cycle timer fires (its callback id 1 is traced), the dormant
timer stays dormant. -/
theorem time_notify_timers_witness :
    (Time.notifyTimers sampleTime 5).2 = [1] ∧
    ((Time.notifyTimers sampleTime 5).1.aTimers.getD 1 default).nCyclesLeft
      = -1 := by
  obtain ⟨-, hset, htr⟩ :=
    time_notify_timers sampleTime 5 (by decide) rfl rfl
  constructor
  · rw [htr]
    decide
  · rw [hset 1 (by decide)]
    decide

theorem endBurst_life (s : TimeState) (n : Int) :
    (Time.endBurst s n).1.nCyclesLife = s.nCyclesLife + n := by
  obtain ⟨-, -, -, -, -, -, -, -, h9, -⟩ := endBurstDeposit_fields s n
  unfold Time.endBurst
  dsimp only
  split_ifs <;> simpa using h9

theorem endBurst_nStepping (s : TimeState) (n : Int) :
    (Time.endBurst s n).1.nStepping = s.nStepping := by
  obtain ⟨-, -, -, -, -, -, -, -, -, h10⟩ := endBurstDeposit_fields s n
  unfold Time.endBurst
  dsimp only
  split_ifs <;> simpa using h10

theorem stop_fRunning (s : TimeState) : (Time.stop s).1.fRunning = false := by
  unfold Time.stop
  by_cases h1 : s.fRunning = true
  · rw [if_pos h1]
    dsimp only
    obtain ⟨-, -, -, -, -, hF, -⟩ := endBurst_fields { s with fRunning := false }
      ({ s with fRunning := false }.nCyclesBurst -
        { s with fRunning := false }.nCyclesRemain)
    unfold Time.endBurstAuto
    split_ifs <;> simpa using hF
  · rw [if_neg h1]
    have hfr : s.fRunning = false := by
      revert h1
      cases s.fRunning <;> simp
    split_ifs <;> simpa using hfr

theorem stop_life_commit (s : TimeState) (h : s.fRunning = true) :
    (Time.stop s).1.nCyclesLife =
      s.nCyclesLife + (s.nCyclesBurst - s.nCyclesRemain) := by
  unfold Time.stop
  rw [if_pos h]
  dsimp only
  have hlife := endBurst_life { s with fRunning := false }
    ({ s with fRunning := false }.nCyclesBurst -
      { s with fRunning := false }.nCyclesRemain)
  unfold Time.endBurstAuto
  split_ifs <;> simpa using hlife

/-- C8: an exception a clocked device throws during a burst inside
`runCycles` is caught at the top of the run loop (`runCycles` is total and
returns a state instead of re-raising), reported, and treated as an
implicit `stop()`: the result is exactly `stop` applied to the state the
exception left behind, `fRunning` ends up false, and when the scheduler
was running at the throw the partially executed burst cycles
(`nCyclesBurst - nCyclesRemain`) stay committed to `nCyclesLife` rather
than being rolled back. -/
theorem time_run_exception_stops (clocks : List ClockBeh) (s : TimeState)
    (fAnimation : Bool) (fuel : Nat) (e : Nat) (sErr : TimeState)
    (herr : Time.runCyclesLoop clocks fAnimation fuel
        { Time.startRun s with fYield := false } = Except.error (e, sErr)) :
    Time.runCycles clocks s fAnimation fuel = (Time.stop sErr).1 ∧
    (Time.runCycles clocks s fAnimation fuel).fRunning = false ∧
    (sErr.fRunning = true →
      (Time.runCycles clocks s fAnimation fuel).nCyclesLife =
        sErr.nCyclesLife + (sErr.nCyclesBurst - sErr.nCyclesRemain)) := by
  have heq : Time.runCycles clocks s fAnimation fuel = (Time.stop sErr).1 := by
    dsimp only at herr
    unfold Time.runCycles
    dsimp only
    rw [herr]
  refine ⟨heq, ?_, ?_⟩
  · rw [heq]
    exact stop_fRunning sErr
  · intro hrun
    rw [heq]
    exact stop_life_commit sErr hrun

/-- Closed witness for C8: a single device that always throws, clocked by
frame with three banked cycles, leaves the scheduler stopped. -/
theorem time_run_exception_stops_witness :
    (Time.runCycles [fun _ => Except.error 7] sampleTime true 1).fRunning =
      false := by
  obtain ⟨p, hp⟩ : ∃ p, Time.runCyclesLoop [fun _ => Except.error 7] true 1
      { Time.startRun sampleTime with fYield := false } = Except.error p :=
    ⟨_, rfl⟩
  exact (time_run_exception_stops [fun _ => Except.error 7] sampleTime true 1
    p.1 p.2 (by rw [hp])).2.1

theorem getCyclesPerRun_fRunning (s : TimeState) (fAnimation : Bool)
    (nMinCycles : Int) :
    (Time.getCyclesPerRun s fAnimation nMinCycles).2.fRunning = s.fRunning := by
  unfold Time.getCyclesPerRun Time.runBudget
  dsimp only
  split_ifs <;> rfl

theorem setTimer_fRunning (s : TimeState) (iTimer : Nat) (ms : Rat)
    (fReset : Bool) :
    (Time.setTimer s iTimer ms fReset).1.fRunning = s.fRunning := by
  unfold Time.setTimer Time.endBurstAuto
  dsimp only
  obtain ⟨-, -, -, -, -, hF, -⟩ :=
    endBurst_fields s (s.nCyclesBurst - s.nCyclesRemain)
  split_ifs <;> first
    | rfl
    | simpa using hF

theorem notifyLoop_fRunning (n : Int) : ∀ (k : Nat) (s : TimeState),
    (Time.notifyLoop s n k).1.fRunning = s.fRunning := by
  intro k
  induction k with
  | zero => intro s; rw [Time.notifyLoop]
  | succ k ih =>
    intro s
    rw [Time.notifyLoop]
    dsimp only
    split_ifs with h1 h2 h3
    · exact ih s
    · rw [ih _, setTimer_fRunning]
    · exact ih _
    · exact ih _

theorem notifyTimers_fRunning (s : TimeState) (n : Int) :
    (Time.notifyTimers s n).1.fRunning = s.fRunning := by
  unfold Time.notifyTimers
  split_ifs
  · exact notifyLoop_fRunning n s.aTimers.length s
  · rfl

theorem doBurstLoop_fRunning (clocks : List ClockBeh) : ∀ (gas : Nat)
    (s : TimeState) (nCycles : Int) (iClock : Nat),
    (∀ s', Time.doBurstLoop clocks s nCycles iClock gas = Except.ok s' →
      s'.fRunning = s.fRunning) ∧
    (∀ e s', Time.doBurstLoop clocks s nCycles iClock gas =
        Except.error (e, s') → s'.fRunning = s.fRunning) := by
  intro gas
  induction gas with
  | zero =>
    intro s n i
    constructor
    · intro s' h
      rw [Time.doBurstLoop] at h
      cases h
      rfl
    · intro e s' h
      rw [Time.doBurstLoop] at h
      cases h
  | succ g ih =>
    intro s n i
    constructor
    · intro s' h
      rw [Time.doBurstLoop] at h
      by_cases hrem : s.nCyclesRemain > 0
      · rw [if_pos hrem] at h
        by_cases hic : i < clocks.length
        · rw [dif_pos hic] at h
          cases hbeh : clocks.get ⟨i, hic⟩ n with
          | error e0 =>
            rw [hbeh] at h
            cases h
          | ok r0 =>
            rw [hbeh] at h
            dsimp only at h
            have := (ih _ _ _).1 s' h
            simpa using this
        · rw [dif_neg hic] at h
          exact (ih _ _ _).1 s' h
      · rw [if_neg hrem] at h
        cases h
        rfl
    · intro e s' h
      rw [Time.doBurstLoop] at h
      by_cases hrem : s.nCyclesRemain > 0
      · rw [if_pos hrem] at h
        by_cases hic : i < clocks.length
        · rw [dif_pos hic] at h
          cases hbeh : clocks.get ⟨i, hic⟩ n with
          | error e0 =>
            rw [hbeh] at h
            dsimp only at h
            cases h
            rfl
          | ok r0 =>
            rw [hbeh] at h
            dsimp only at h
            have := (ih _ _ _).2 e s' h
            simpa using this
        · rw [dif_neg hic] at h
          exact (ih _ _ _).2 e s' h
      · rw [if_neg hrem] at h
        cases h
